import Mathlib

/-!
Earthquake dashboard: the chunked retrieval engine of `src/map.js`

A shallow embedding of the data-fetching code of `src/map.js`
(`dateDiffInDays`, `fetchEarthquakesWithFilters`, `fetchWithChunking`,
`fetchChunk`, `fetchSingleRequest`, `renderEarthquakes`) and theorems about it.

Modelling conventions.

* Dates.  A date string `YYYY-MM-DD` (the value of a date input, or
  `toISOString().split('T')[0]`) is a whole day number, days since 1970-01-01.
  A `Date` object is an instant, milliseconds since the epoch.
  `new Date(str)` is UTC midnight of the day, `toISOString` reads the UTC day
  of an instant, `setDate(getDate() + n)` adds `n` calendar days to the local
  time of the instant and converts back, and `<=`, `>` on `Date` objects
  compare instants.  The local time zone is a parameter of the model.
* Network.  The remote service is the environment: a run of the code is
  driven by the list of outcomes of the `fetch` calls it awaits, one outcome
  per request, in order.  An outcome is a transport failure or a response with
  a status and a body; the body may fail to decode (`response.json()`
  rejects), decode to `null`, or decode to a value whose members
  `metadata.count` and `features` are both optional.  When present, `features`
  is an array of feature objects and `count` a natural number.
* Numbers.  Magnitudes, depths and coordinates are rationals.  The chunk size
  is a natural number; `Math.floor(s * 0.7)` is `s * 7 / 10`, which is what
  double arithmetic yields on every size the loop can reach
  (20, 14, 9, 6, 4, 3).  The progress percentage follows double arithmetic:
  the quotient and the product are each rounded to the nearest double, ties to
  even; this is exact for operands below `2 ^ 53` in absolute value.
* Timers (`setTimeout`) and the DOM are not modelled, except for the value
  last computed for the progress bar.
-/

namespace EarthquakeDashboard

/-! ## Dates, instants and time zones -/

/-- Day number of a proleptic Gregorian calendar date, the value
`Date.UTC(y, m - 1, d) / 86400000` of the JavaScript built-in. -/
def dayOfDate (y m d : Int) : Int :=
  let y1 := if m ≤ 2 then y - 1 else y
  let era := y1 / 400
  let yoe := y1 - era * 400
  let mp := (m + 9) % 12
  let doy := (153 * mp + 2) / 5 + d - 1
  let doe := yoe * 365 + yoe / 4 - yoe / 100 + doy
  era * 146097 + doe - 719468

/-- Milliseconds per day, `1000 * 60 * 60 * 24`. -/
def msPerDay : Int := 1000 * 60 * 60 * 24

/-- Milliseconds per hour. -/
def msPerHour : Int := 1000 * 60 * 60

/-- The local time zone of the browser: the offset of local time from UTC, in
milliseconds, as a function of a UTC instant (`LocalTZA(t, true)` of
ECMAScript) and as a function of a local time value (`LocalTZA(t, false)`). -/
structure TimeZone where
  offsetAtUtc : Int → Int
  offsetAtLocal : Int → Int

/-- A time zone with a constant offset from UTC. -/
def TimeZone.fixed (offset : Int) : TimeZone :=
  { offsetAtUtc := fun _ => offset, offsetAtLocal := fun _ => offset }

/-- The time zone UTC. -/
def utc : TimeZone := TimeZone.fixed 0

/-- A time zone with one summer-time period, given by the two UTC instants at
which the offset changes.  A local time skipped at the start of the period is
read with the standard offset and a local time repeated at its end with the
summer offset, the offset in force before the change, as ECMAScript requires. -/
def TimeZone.withSummerTime (standard summer summerStart summerEnd : Int) : TimeZone :=
  { offsetAtUtc := fun t => if summerStart ≤ t ∧ t < summerEnd then summer else standard
    offsetAtLocal := fun t =>
      if summerStart + summer ≤ t ∧ t < summerEnd + summer then summer else standard }

/-- Europe/Berlin from autumn 2023 to spring 2025: UTC+1, and UTC+2 from
2024-03-31 01:00 UTC to 2024-10-27 01:00 UTC. -/
def europeBerlin : TimeZone :=
  TimeZone.withSummerTime msPerHour (2 * msPerHour)
    (dayOfDate 2024 3 31 * msPerDay + msPerHour) (dayOfDate 2024 10 27 * msPerDay + msPerHour)

/-- America/New_York from autumn 2023 to spring 2025: UTC-5, and UTC-4 from
2024-03-10 07:00 UTC to 2024-11-03 06:00 UTC. -/
def americaNewYork : TimeZone :=
  TimeZone.withSummerTime (-5 * msPerHour) (-4 * msPerHour)
    (dayOfDate 2024 3 10 * msPerDay + 7 * msPerHour)
    (dayOfDate 2024 11 3 * msPerDay + 6 * msPerHour)

/-- The instant `new Date(str).getTime()` of a date string: UTC midnight. -/
def parseDate (d : Int) : Int := d * msPerDay

/-- The date string `date.toISOString().split('T')[0]` of an instant: its UTC day. -/
def toISODate (t : Int) : Int := t / msPerDay

/-- The instant after `date.setDate(date.getDate() + n)`: the local time of
`t` moved by `n` calendar days, converted back to UTC. -/
def addDays (tz : TimeZone) (t : Int) (n : Int) : Int :=
  let localTime := t + tz.offsetAtUtc t
  let newLocalTime := localTime + n * msPerDay
  newLocalTime - tz.offsetAtLocal newLocalTime

/-- The value `Math.ceil(a / b)` for integers `a` and `b > 0`. -/
def ceilDiv (a b : Int) : Int := Int.neg ((Int.neg a) / b)

/-- Source `dateDiffInDays(start, end)` on two date strings:
`Math.ceil((new Date(end) - new Date(start)) / (1000 * 60 * 60 * 24))`. -/
def dateDiffInDays (start endDate : Int) : Int :=
  let diffTime := parseDate endDate - parseDate start
  ceilDiv diffTime msPerDay

/-! ## Double arithmetic for the progress percentage -/

/-- Number of binary digits of `n`, computed with at most `fuel` halvings. -/
def bitLengthAux : Nat → Nat → Nat
  | 0, _ => 0
  | fuel + 1, n => if n = 0 then 0 else bitLengthAux fuel (n / 2) + 1

/-- Number of binary digits of `n`; `n` halvings always suffice. -/
def bitLength (n : Nat) : Nat := bitLengthAux n n

/-- The integer nearest to `a / b`, ties to the even one. -/
def roundHalfEven (a b : Nat) : Nat :=
  let q := a / b
  let r := a % b
  if 2 * r < b then q
  else if b < 2 * r then q + 1
  else if q % 2 = 0 then q else q + 1

/-- The double nearest to the positive rational `a / b` (ties to even, 53
significant bits, exponent range not limited), as a fraction
`(numerator, denominator)` whose denominator is a power of two. -/
def roundToDouble (a b : Nat) : Nat × Nat :=
  let up := 54 + bitLength b - bitLength a
  let down := bitLength a - (54 + bitLength b)
  let a1 := a * 2 ^ up
  let b1 := b * 2 ^ down
  let b2 := if a1 < b1 * 2 ^ 54 then b1 * 2 else b1 * 4
  let m := roundHalfEven a1 b2
  (m * (b2 / b), a1 / a)

/-- The JavaScript number held by `progress`. -/
inductive Progress where
  | nan
  | negInfinity
  | percent (n : Int)
deriving DecidableEq

/-- The progress value `Math.min(100, Math.round((processedDays / totalDays) * 100))`:
the quotient and the product are rounded to doubles, `Math.round x` is the
floor of `x + 1/2`.  A zero `totalDays` gives `NaN`, `100` (from `Infinity`)
or `-Infinity`. -/
def progressOf (processedDays totalDays : Int) : Progress :=
  if totalDays = 0 then
    if processedDays = 0 then .nan
    else if 0 < processedDays then .percent 100
    else .negInfinity
  else if processedDays = 0 then .percent 0
  else
    let q := roundToDouble processedDays.natAbs totalDays.natAbs
    let x := roundToDouble (q.1 * 100) q.2
    let sign : Int := if decide (0 < processedDays) = decide (0 < totalDays) then 1 else -1
    .percent (min 100 ((sign * (2 * (x.1 : Int)) + (x.2 : Int)) / (2 * (x.2 : Int))))

/-! ## Records and responses -/

/-- One GeoJSON feature of the USGS feed: `geometry.coordinates = [lng, lat, depth]`
and `properties = {mag, place, time}`. -/
structure Quake where
  lng : ℚ
  lat : ℚ
  depth : ℚ
  mag : ℚ
  place : String
  time : Int
deriving DecidableEq

/-- What `await response.json()` yields. -/
inductive Body where
  /-- The promise rejects: the body is empty or is not JSON. -/
  | undecodable
  /-- The body is the JSON value `null`. -/
  | null
  /-- Any other JSON value, reduced to the two members the code reads:
  `data.metadata?.count` and `data.features`, each `none` when absent. -/
  | json (count : Option Nat) (features : Option (List Quake))
deriving DecidableEq

/-- A response of the remote query endpoint: the HTTP status and the body. -/
structure Response where
  status : Nat
  body : Body
deriving DecidableEq

/-- The flag `response.ok` of the Fetch API: the status is in the range 200-299. -/
def Response.ok (r : Response) : Bool :=
  decide (200 ≤ r.status) && decide (r.status ≤ 299)

/-- What awaiting `fetch(url)` yields: the promise rejects (transport failure)
or resolves to a response. -/
inductive FetchOutcome where
  | networkError
  | response (r : Response)
deriving DecidableEq

/-- The errors thrown inside `fetchChunk`: one constructor per `throw` site,
the rejection of `fetch`, the rejection of `response.json()` and the
`TypeError` of reading `data.metadata` on `null`. -/
inductive ChunkError where
  /-- The error `Rate limited: Too many requests`. -/
  | rateLimited
  /-- The error `HTTP error! status: ..`. -/
  | serverError (status : Nat)
  /-- The error `Too many records in this chunk. Consider reducing chunk size.` -/
  | tooManyRecords
  /-- The rejection of `fetch`, propagated by `await`. -/
  | networkError
  /-- The rejection of `response.json()`, propagated by `await`. -/
  | bodyNotJson
  /-- The `TypeError` thrown by `data.metadata` when `data` is `null`. -/
  | bodyNull
deriving DecidableEq

/-! ## fetchChunk -/

/-- Source `fetchChunk(start, end, chunkSize)`, as a function of the outcome of
its `fetch` call (the dates only enter the URL). -/
def fetchChunk (o : FetchOutcome) : Except ChunkError (List Quake) :=
  match o with
  | .networkError => .error .networkError
  | .response r =>
    if !r.ok then
      if r.status = 429 then .error .rateLimited
      else .error (.serverError r.status)
    else
      match r.body with
      | .undecodable => .error .bodyNotJson
      | .null => .error .bodyNull
      | .json (some c) features =>
        if c ≥ 15000 then .error .tooManyRecords
        else .ok (features.getD [])
      | .json none features => .ok (features.getD [])

/-! ## fetchWithChunking -/

/-- One call of `fetchChunk` made by the loop: the date strings put in the URL,
the chunk size in force, and what the call returned or threw. -/
structure Attempt where
  chunkStart : Int
  chunkEnd : Int
  size : Nat
  result : Except ChunkError (List Quake)

/-- The local variables of `fetchWithChunking`, the value last computed for the
progress bar, and the history of the `fetchChunk` calls made so far. -/
structure ChunkState where
  allQuakes : List Quake
  /-- The `Date` object `currentStart`, as an instant. -/
  currentStart : Int
  processedDays : Int
  safeChunkSize : Nat
  /-- The value of `progress` last written to `global-progress-bar`, `none`
  before the first write. -/
  progressBar : Option Progress
  /-- Ghost variable: every `fetchChunk` call so far, oldest first. -/
  history : List Attempt

/-- The instant `chunkEnd` computed at the top of the loop body:
`currentStart` moved by `safeChunkSize` local days, replaced by `end` when it
is later than `end`. -/
def chunkEndOf (tz : TimeZone) (endTime currentStart : Int) (safeChunkSize : Nat) : Int :=
  let chunkEnd := addDays tz currentStart (safeChunkSize : Int)
  if chunkEnd > endTime then endTime else chunkEnd

/-- The date strings `(chunkStartStr, chunkEndStr)` requested by the loop body
at a given cursor and chunk size. -/
def chunkRange (tz : TimeZone) (endTime currentStart : Int) (safeChunkSize : Nat) :
    Int × Int :=
  (toISODate currentStart, toISODate (chunkEndOf tz endTime currentStart safeChunkSize))

/-- The chunk size after a failed attempt: `Math.max(3, Math.floor(safeChunkSize * 0.7))`. -/
def shrink (safeChunkSize : Nat) : Nat :=
  max 3 (safeChunkSize * 7 / 10)

/-- One iteration of the `while` loop of `fetchWithChunking`, given the outcome
of the `fetch` call it awaits. -/
def attempt (tz : TimeZone) (endTime totalDays : Int) (st : ChunkState) (o : FetchOutcome) :
    ChunkState :=
  let chunkEnd := chunkEndOf tz endTime st.currentStart st.safeChunkSize
  let chunkStartStr := toISODate st.currentStart
  let chunkEndStr := toISODate chunkEnd
  let result := fetchChunk o
  let history := st.history ++ [⟨chunkStartStr, chunkEndStr, st.safeChunkSize, result⟩]
  match result with
  | .ok chunkData =>
    let processedDays := st.processedDays + dateDiffInDays chunkStartStr chunkEndStr
    { allQuakes := st.allQuakes ++ chunkData
      currentStart := addDays tz chunkEnd 1
      processedDays := processedDays
      safeChunkSize := st.safeChunkSize
      progressBar := some (progressOf processedDays totalDays)
      history := history }
  | .error _ =>
    { st with safeChunkSize := shrink st.safeChunkSize, history := history }

/-- Where a run of `fetchWithChunking` stands once the given outcomes have been
delivered. -/
structure Run where
  /-- The variables of the loop. -/
  state : ChunkState
  /-- True when the loop has exited and `renderEarthquakes(allQuakes)` and
  `updateStats(allQuakes)` have been called; false when the loop is waiting for
  the outcome of its next request. -/
  done : Bool
  /-- The outcomes that were not consumed, the loop having exited before. -/
  unused : List FetchOutcome

/-- The `while (currentStart <= end)` loop of `fetchWithChunking`; `endTime` is
the instant of the `Date` object `end`. -/
def chunkLoop (tz : TimeZone) (endTime totalDays : Int) :
    ChunkState → List FetchOutcome → Run
  | st, [] => ⟨st, decide (¬ st.currentStart ≤ endTime), []⟩
  | st, o :: os =>
    if st.currentStart ≤ endTime then
      chunkLoop tz endTime totalDays (attempt tz endTime totalDays st o) os
    else ⟨st, true, o :: os⟩

/-- The state in which `fetchWithChunking(startDate, endDate)` enters its loop. -/
def initialState (startDate : Int) : ChunkState :=
  { allQuakes := []
    currentStart := parseDate startDate
    processedDays := 0
    safeChunkSize := 20
    progressBar := none
    history := [] }

/-- Source `fetchWithChunking(startDate, endDate)`, driven by the outcomes of
its requests. -/
def fetchWithChunking (tz : TimeZone) (startDate endDate : Int) (os : List FetchOutcome) :
    Run :=
  let totalDays := dateDiffInDays startDate endDate
  chunkLoop tz (parseDate endDate) totalDays (initialState startDate) os

/-- The chunks whose fetch succeeded, oldest first, as pairs of date strings. -/
def fetchedChunks (h : List Attempt) : List (Int × Int) :=
  h.filterMap fun a =>
    match a.result with
    | .ok _ => some (a.chunkStart, a.chunkEnd)
    | .error _ => none

/-- The payload of an outcome when `fetchChunk` returns on it. -/
def payload? (o : FetchOutcome) : Option (List Quake) :=
  match fetchChunk o with
  | .ok qs => some qs
  | .error _ => none

/-- Whether an inclusive range of whole days contains a day. -/
def covers (d : Int) (c : Int × Int) : Bool :=
  decide (c.1 ≤ d) && decide (d ≤ c.2)

/-- The argument of the calls `renderEarthquakes(allQuakes)` and
`updateStats(allQuakes)` that follow the loop, `none` while the loop has not
exited. -/
def Run.delivered (r : Run) : Option (List Quake) :=
  if r.done then some r.state.allQuakes else none

/-- The `(starttime, endtime)` pairs of the requests a run has issued: one per
recorded attempt, and the request the loop is waiting on when it has not exited. -/
def Run.requests (tz : TimeZone) (endTime : Int) (r : Run) : List (Int × Int) :=
  r.state.history.map (fun a => (a.chunkStart, a.chunkEnd)) ++
    (if r.done then []
      else [chunkRange tz endTime r.state.currentStart r.state.safeChunkSize])

/-! ## renderEarthquakes -/

/-- The statement `if (!maxMagnitudeEq || mag > maxMagnitudeEq.properties.mag)
maxMagnitudeEq = quake` in the body of the `forEach` of `renderEarthquakes`. -/
def updateMax (maxMagnitudeEq : Option Quake) (quake : Quake) : Option Quake :=
  match maxMagnitudeEq with
  | none => some quake
  | some m => if quake.mag > m.mag then some quake else some m

/-- Source `renderEarthquakes(earthquakes)`, reduced to its effect on the
global `maxMagnitudeEq`: reset to `null`, left so for an empty list, and
otherwise updated by the `forEach` loop. -/
def renderEarthquakes (earthquakes : List Quake) : Option Quake :=
  if earthquakes.isEmpty then none
  else earthquakes.foldl updateMax none

/-! ## fetchSingleRequest and fetchEarthquakesWithFilters -/

/-- What the page shows when `fetchEarthquakesWithFilters` has handled the
outcomes delivered so far. -/
inductive Display where
  /-- The validation message `Please select a time period less than or equal to 1 year.` -/
  | alert
  /-- A request is in flight. -/
  | loading
  /-- The calls `renderEarthquakes(qs)` and `updateStats(qs)` were made. -/
  | rendered (qs : List Quake)
  /-- The message `Error loading data. Please try again.` -/
  | error
deriving DecidableEq

/-- The observable behaviour of one call of `fetchEarthquakesWithFilters`: the
requests issued, as `(starttime, endtime)` pairs in order, and what is shown. -/
structure Report where
  requests : List (Int × Int)
  display : Display
deriving DecidableEq

/-- Source `fetchSingleRequest(start, end)` inside the `try` of its caller:
one request over the whole range; a rejected `fetch`, a non-ok response, a
body that does not decode and a `null` body throw, anything else is rendered. -/
def fetchSingleRequest (start endDate : Int) (os : List FetchOutcome) : Report :=
  match os with
  | [] => ⟨[(start, endDate)], .loading⟩
  | .networkError :: _ => ⟨[(start, endDate)], .error⟩
  | .response r :: _ =>
    if !r.ok then ⟨[(start, endDate)], .error⟩
    else
      match r.body with
      | .undecodable => ⟨[(start, endDate)], .error⟩
      | .null => ⟨[(start, endDate)], .error⟩
      | .json _ features => ⟨[(start, endDate)], .rendered (features.getD [])⟩

/-- Source `fetchEarthquakesWithFilters()`, from the point where `startDate`
and `endDate` have been read from the filters. -/
def fetchEarthquakesWithFilters (tz : TimeZone) (startDate endDate : Int)
    (os : List FetchOutcome) : Report :=
  let daysDifference := dateDiffInDays startDate endDate
  if daysDifference > 400 then ⟨[], .alert⟩
  else if daysDifference > 35 then
    let run := fetchWithChunking tz startDate endDate os
    ⟨run.requests tz (parseDate endDate),
      match run.delivered with
      | some qs => .rendered qs
      | none => .loading⟩
  else fetchSingleRequest startDate endDate os

/-! ## Sample data -/

/-- A sample record with the given magnitude and place. -/
def sampleQuake (mag : ℚ) (place : String) : Quake :=
  { lng := 142, lat := 38, depth := 10, mag := mag, place := place, time := 0 }

/-- A status-200 response carrying the given records and their count. -/
def okResponse (qs : List Quake) : FetchOutcome :=
  .response { status := 200, body := .json (some qs.length) (some qs) }

/-- A response with the given status and an empty body. -/
def statusResponse (status : Nat) : FetchOutcome :=
  .response { status := status, body := .undecodable }

/-- A status-200 response reporting 15000 records and carrying them. -/
def overCeilingResponse : Response :=
  { status := 200
    body := .json (some 15000) (some (List.replicate 15000 (sampleQuake 1 "Alaska"))) }

/-- The first `n` outcomes of an unending sequence of outcomes. -/
def firstOutcomes (f : Nat → FetchOutcome) (n : Nat) : List FetchOutcome :=
  (List.range n).map f

/-- Number of failed attempts among the given outcomes. -/
def failureCount (os : List FetchOutcome) : Nat :=
  (os.filter fun o => (payload? o).isNone).length

/-! ## Specification vocabulary -/

/-- The offset of the time zone from UTC is the same at every instant. -/
def TimeZone.IsFixed (tz : TimeZone) (offset : Int) : Prop :=
  ∀ t : Int, tz.offsetAtUtc t = offset ∧ tz.offsetAtLocal t = offset

/-- Every offset of the time zone from UTC lies between `lo` and `hi`. -/
def TimeZone.Within (tz : TimeZone) (lo hi : Int) : Prop :=
  ∀ t : Int, (lo ≤ tz.offsetAtUtc t ∧ tz.offsetAtUtc t ≤ hi) ∧
    (lo ≤ tz.offsetAtLocal t ∧ tz.offsetAtLocal t ≤ hi)

/-- A list of inclusive day ranges partitions `[lo, hi]` from left to right:
each range starts on the day after the previous one ends, the first on `lo`,
and the last ends on `hi`; the empty list partitions the empty range. -/
def Tiles : List (Int × Int) → Int → Int → Prop
  | [], lo, hi => lo = hi + 1
  | c :: cs, lo, hi => c.1 = lo ∧ lo ≤ c.2 ∧ Tiles cs (c.2 + 1) hi

/-- The invariant of the loop for the tiling when the cursor only takes UTC
midnights: the chunks fetched so far partition the days from `startDate` up to
the day before the cursor, and the cursor is at most one day past `endDate`. -/
def TilingInv (startDate endDate : Int) (st : ChunkState) : Prop :=
  st.currentStart = parseDate (toISODate st.currentStart) ∧
    Tiles (fetchedChunks st.history) startDate (toISODate st.currentStart - 1) ∧
    toISODate st.currentStart ≤ endDate + 1

/-- The chunk size stays between the floor 3 and the initial size 20. -/
def SizeInv (st : ChunkState) : Prop :=
  3 ≤ st.safeChunkSize ∧ st.safeChunkSize ≤ 20

/-- The accounting of `processedDays` when the cursor only takes UTC midnights:
each fetched chunk adds the difference of its bounds, while the cursor moves
one day further. -/
def ProgressInv (startDate : Int) (st : ChunkState) : Prop :=
  st.currentStart = parseDate (toISODate st.currentStart) ∧
    st.processedDays + ((fetchedChunks st.history).length : Int) =
      toISODate st.currentStart - startDate

/-- Every fetched chunk spans at most the initial chunk size, when the cursor
only takes UTC midnights. -/
def SpanInv (st : ChunkState) : Prop :=
  st.currentStart = parseDate (toISODate st.currentStart) ∧
    st.safeChunkSize ≤ 20 ∧ ∀ c ∈ fetchedChunks st.history, c.2 - c.1 ≤ 20

/-- The invariant behind the bound on the number of fetched chunks, for a time
zone whose offsets lie within a window of width `w`: while the cursor has not
passed `endTime` every fetched chunk has moved it forward by a day or more,
and the chunk that moves it past `endTime` is the last one. -/
def CountInv (startTime endTime w : Int) (st : ChunkState) : Prop :=
  3 ≤ st.safeChunkSize ∧
    st.currentStart ≤ endTime + msPerDay + w ∧
    ((((fetchedChunks st.history).length : Int) * msPerDay ≤ st.currentStart - startTime) ∨
      (endTime < st.currentStart ∧
        ((fetchedChunks st.history).length : Int) * msPerDay ≤ endTime - startTime + msPerDay))

/-! ## Basic facts -/

theorem toISODate_parseDate (d : Int) : toISODate (parseDate d) = d := by
  unfold toISODate parseDate
  exact Int.mul_ediv_cancel d (by decide)

theorem dateDiffInDays_eq (start endDate : Int) :
    dateDiffInDays start endDate = endDate - start := by
  have h1 : ∀ a : Int, Int.neg a = -a := fun _ => rfl
  have h2 : -(parseDate endDate - parseDate start) = (start - endDate) * msPerDay := by
    unfold parseDate; ring
  have h3 : msPerDay ≠ 0 := by decide
  simp only [dateDiffInDays, ceilDiv, h1, h2]
  rw [Int.mul_ediv_cancel _ h3]
  ring

theorem addDays_fixed (tz : TimeZone) (offset : Int) (h : tz.IsFixed offset) (t n : Int) :
    addDays tz t n = t + n * msPerDay := by
  unfold addDays
  simp only [(h _).1, (h _).2]
  ring

theorem addDays_ge (tz : TimeZone) (lo hi : Int) (h : tz.Within lo hi) (t n : Int) :
    t + n * msPerDay - (hi - lo) ≤ addDays tz t n := by
  unfold addDays
  have h1 := (h t).1
  have h2 := (h (t + tz.offsetAtUtc t + n * msPerDay)).2
  simp only []
  omega

theorem addDays_le (tz : TimeZone) (lo hi : Int) (h : tz.Within lo hi) (t n : Int) :
    addDays tz t n ≤ t + n * msPerDay + (hi - lo) := by
  unfold addDays
  have h1 := (h t).1
  have h2 := (h (t + tz.offsetAtUtc t + n * msPerDay)).2
  simp only []
  omega

theorem isFixed_fixed (offset : Int) : (TimeZone.fixed offset).IsFixed offset :=
  fun _ => ⟨rfl, rfl⟩

theorem bitLengthAux_bounds : ∀ (fuel n : Nat), n ≤ fuel →
    n < 2 ^ bitLengthAux fuel n ∧ (0 < n → 2 ^ (bitLengthAux fuel n - 1) ≤ n) := by
  intro fuel
  induction fuel with
  | zero =>
    intro n hn
    have h0 : n = 0 := by omega
    subst h0
    simp [bitLengthAux]
  | succ k ih =>
    intro n hn
    by_cases h0 : n = 0
    · subst h0
      simp [bitLengthAux]
    · have hstep : bitLengthAux (k + 1) n = bitLengthAux k (n / 2) + 1 := by
        simp [bitLengthAux, h0]
      obtain ⟨h1, h2⟩ := ih (n / 2) (by omega)
      rw [hstep]
      refine ⟨?_, fun _ => ?_⟩
      · rw [pow_succ]
        omega
      · rw [Nat.add_sub_cancel]
        by_cases hh : n / 2 = 0
        · have hb : bitLengthAux k (n / 2) = 0 := by
            rw [hh]
            cases k <;> simp [bitLengthAux]
          rw [hb]
          simp
          omega
        · have h3 := h2 (by omega)
          have hb : 1 ≤ bitLengthAux k (n / 2) := by
            by_contra hc
            have : bitLengthAux k (n / 2) = 0 := by omega
            rw [this] at h1
            simp at h1
            omega
          have : 2 ^ bitLengthAux k (n / 2) = 2 ^ (bitLengthAux k (n / 2) - 1) * 2 := by
            rw [← pow_succ]
            congr 1
            omega
          rw [this]
          omega

/-- The fuel of `bitLength` suffices: `bitLength n` is the number of binary digits of `n`. -/
theorem bitLength_bounds (n : Nat) :
    n < 2 ^ bitLength n ∧ (0 < n → 2 ^ (bitLength n - 1) ≤ n) :=
  bitLengthAux_bounds n n (le_refl n)

/-- The progress value on sample operands: 29 of 200 gives 14, since the
double product is just below 14.5; 58 of 60 gives 97; the value is capped at
100; a zero total gives `NaN`, 100 or `-Infinity`. -/
theorem progressOf_samples :
    progressOf 29 200 = .percent 14 ∧ progressOf 58 60 = .percent 97 ∧
    progressOf 1 8 = .percent 13 ∧ progressOf 60 60 = .percent 100 ∧
    progressOf 90 60 = .percent 100 ∧ progressOf 0 60 = .percent 0 ∧
    progressOf 0 0 = .nan ∧ progressOf 5 0 = .percent 100 ∧
    progressOf (-5) 0 = .negInfinity ∧ progressOf (-3) 200 = .percent (-1) := by
  decide

theorem shrink_ge (s : Nat) : 3 ≤ shrink s := by
  unfold shrink; omega

theorem shrink_le (s : Nat) (h : 3 ≤ s) : shrink s ≤ s := by
  unfold shrink; omega

theorem shrink_lt (s : Nat) (h : 3 < s) : shrink s < s := by
  unfold shrink; omega

theorem payload?_eq_some (o : FetchOutcome) (qs : List Quake) :
    payload? o = some qs ↔ fetchChunk o = .ok qs := by
  unfold payload?
  cases fetchChunk o <;> simp

theorem payload?_eq_none (o : FetchOutcome) :
    payload? o = none ↔ ∃ e, fetchChunk o = .error e := by
  unfold payload?
  cases fetchChunk o <;> simp

/-! ## One iteration of the loop -/

theorem attempt_ok (tz : TimeZone) (endTime totalDays : Int) (st : ChunkState)
    (o : FetchOutcome) (qs : List Quake) (h : fetchChunk o = .ok qs) :
    attempt tz endTime totalDays st o =
      { allQuakes := st.allQuakes ++ qs
        currentStart := addDays tz (chunkEndOf tz endTime st.currentStart st.safeChunkSize) 1
        processedDays := st.processedDays +
          dateDiffInDays (toISODate st.currentStart)
            (toISODate (chunkEndOf tz endTime st.currentStart st.safeChunkSize))
        safeChunkSize := st.safeChunkSize
        progressBar := some (progressOf (st.processedDays +
          dateDiffInDays (toISODate st.currentStart)
            (toISODate (chunkEndOf tz endTime st.currentStart st.safeChunkSize)))
          totalDays)
        history := st.history ++ [⟨toISODate st.currentStart,
          toISODate (chunkEndOf tz endTime st.currentStart st.safeChunkSize),
          st.safeChunkSize, .ok qs⟩] } := by
  simp only [attempt, h]

theorem attempt_error (tz : TimeZone) (endTime totalDays : Int) (st : ChunkState)
    (o : FetchOutcome) (e : ChunkError) (h : fetchChunk o = .error e) :
    attempt tz endTime totalDays st o =
      { st with
        safeChunkSize := shrink st.safeChunkSize
        history := st.history ++ [⟨toISODate st.currentStart,
          toISODate (chunkEndOf tz endTime st.currentStart st.safeChunkSize),
          st.safeChunkSize, .error e⟩] } := by
  simp only [attempt, h]

/-! ## The loop as a whole -/

theorem chunkLoop_nil (tz : TimeZone) (endTime totalDays : Int) (st : ChunkState) :
    chunkLoop tz endTime totalDays st [] =
      ⟨st, decide (¬ st.currentStart ≤ endTime), []⟩ := by
  simp only [chunkLoop]

theorem chunkLoop_cons_run (tz : TimeZone) (endTime totalDays : Int) (st : ChunkState)
    (o : FetchOutcome) (os : List FetchOutcome) (h : st.currentStart ≤ endTime) :
    chunkLoop tz endTime totalDays st (o :: os) =
      chunkLoop tz endTime totalDays (attempt tz endTime totalDays st o) os := by
  simp only [chunkLoop, h, if_true]

theorem chunkLoop_cons_exit (tz : TimeZone) (endTime totalDays : Int) (st : ChunkState)
    (o : FetchOutcome) (os : List FetchOutcome) (h : ¬ st.currentStart ≤ endTime) :
    chunkLoop tz endTime totalDays st (o :: os) = ⟨st, true, o :: os⟩ := by
  simp only [chunkLoop, h, if_false]

theorem fetchWithChunking_eq (tz : TimeZone) (startDate endDate : Int)
    (os : List FetchOutcome) :
    fetchWithChunking tz startDate endDate os =
      chunkLoop tz (parseDate endDate) (dateDiffInDays startDate endDate)
        (initialState startDate) os := rfl

theorem failureCount_cons_error (o : FetchOutcome) (os : List FetchOutcome) (e : ChunkError)
    (h : fetchChunk o = .error e) : failureCount (o :: os) = failureCount os + 1 := by
  simp [failureCount, payload?, h]

theorem failureCount_cons_ok (o : FetchOutcome) (os : List FetchOutcome) (qs : List Quake)
    (h : fetchChunk o = .ok qs) : failureCount (o :: os) = failureCount os := by
  simp [failureCount, payload?, h]

/-- Any property of the loop variables that holds on entry and that every
iteration preserves holds wherever the run stands. -/
theorem chunkLoop_invariant (tz : TimeZone) (endTime totalDays : Int)
    (P : ChunkState → Prop)
    (hstep : ∀ st o, P st → st.currentStart ≤ endTime →
      P (attempt tz endTime totalDays st o)) :
    ∀ (os : List FetchOutcome) (st : ChunkState), P st →
      P (chunkLoop tz endTime totalDays st os).state := by
  intro os
  induction os with
  | nil => intro st h; rw [chunkLoop_nil]; exact h
  | cons o os ih =>
    intro st h
    by_cases hc : st.currentStart ≤ endTime
    · rw [chunkLoop_cons_run _ _ _ _ _ _ hc]
      exact ih _ (hstep st o h hc)
    · rw [chunkLoop_cons_exit _ _ _ _ _ _ hc]; exact h

/-- The loop has exited exactly when the cursor is past `endTime`. -/
theorem chunkLoop_done_iff (tz : TimeZone) (endTime totalDays : Int) :
    ∀ (os : List FetchOutcome) (st : ChunkState),
      (chunkLoop tz endTime totalDays st os).done = true ↔
        endTime < (chunkLoop tz endTime totalDays st os).state.currentStart := by
  intro os
  induction os with
  | nil => intro st; rw [chunkLoop_nil]; simp
  | cons o os ih =>
    intro st
    by_cases hc : st.currentStart ≤ endTime
    · rw [chunkLoop_cons_run _ _ _ _ _ _ hc]; exact ih _
    · rw [chunkLoop_cons_exit _ _ _ _ _ _ hc]; simp only [true_iff]; omega

/-- A run that is still waiting has consumed every outcome it was given. -/
theorem chunkLoop_unused_of_waiting (tz : TimeZone) (endTime totalDays : Int) :
    ∀ (os : List FetchOutcome) (st : ChunkState),
      (chunkLoop tz endTime totalDays st os).done = false →
        (chunkLoop tz endTime totalDays st os).unused = [] := by
  intro os
  induction os with
  | nil => intro st _; rw [chunkLoop_nil]
  | cons o os ih =>
    intro st h
    by_cases hc : st.currentStart ≤ endTime
    · rw [chunkLoop_cons_run _ _ _ _ _ _ hc] at h ⊢; exact ih _ h
    · rw [chunkLoop_cons_exit _ _ _ _ _ _ hc] at h; simp at h

/-- Delivering one more outcome to a waiting run performs one iteration. -/
theorem chunkLoop_snoc_waiting (tz : TimeZone) (endTime totalDays : Int) (o : FetchOutcome) :
    ∀ (os : List FetchOutcome) (st : ChunkState),
      (chunkLoop tz endTime totalDays st os).done = false →
        chunkLoop tz endTime totalDays st (os ++ [o]) =
          chunkLoop tz endTime totalDays
            (attempt tz endTime totalDays (chunkLoop tz endTime totalDays st os).state o)
            [] := by
  intro os
  induction os with
  | nil =>
    intro st h
    rw [chunkLoop_nil] at h
    have hc : st.currentStart ≤ endTime := by simpa using h
    simp only [List.nil_append]
    rw [chunkLoop_cons_run _ _ _ _ _ _ hc, chunkLoop_nil _ _ _ st]
  | cons o1 os ih =>
    intro st h
    by_cases hc : st.currentStart ≤ endTime
    · rw [chunkLoop_cons_run _ _ _ _ _ _ hc] at h
      rw [List.cons_append, chunkLoop_cons_run _ _ _ _ _ _ hc,
        chunkLoop_cons_run _ _ _ _ _ _ hc]
      exact ih _ h
    · rw [chunkLoop_cons_exit _ _ _ _ _ _ hc] at h; simp at h

/-- Delivering one more outcome to a run that has exited changes no variable. -/
theorem chunkLoop_snoc_done (tz : TimeZone) (endTime totalDays : Int) (o : FetchOutcome) :
    ∀ (os : List FetchOutcome) (st : ChunkState),
      (chunkLoop tz endTime totalDays st os).done = true →
        (chunkLoop tz endTime totalDays st (os ++ [o])).state =
          (chunkLoop tz endTime totalDays st os).state := by
  intro os
  induction os with
  | nil =>
    intro st h
    rw [chunkLoop_nil] at h
    have hc : ¬ st.currentStart ≤ endTime := by simpa using h
    simp only [List.nil_append]
    rw [chunkLoop_cons_exit _ _ _ _ _ _ hc, chunkLoop_nil _ _ _ st]
  | cons o1 os ih =>
    intro st h
    by_cases hc : st.currentStart ≤ endTime
    · rw [chunkLoop_cons_run _ _ _ _ _ _ hc] at h
      rw [List.cons_append, chunkLoop_cons_run _ _ _ _ _ _ hc,
        chunkLoop_cons_run _ _ _ _ _ _ hc]
      exact ih _ h
    · rw [List.cons_append, chunkLoop_cons_exit _ _ _ _ _ _ hc,
        chunkLoop_cons_exit _ _ _ _ _ _ hc]

/-! ## Failed attempts and the chunk size -/

theorem sizeInv_attempt (tz : TimeZone) (endTime totalDays : Int) (st : ChunkState)
    (o : FetchOutcome) (h : SizeInv st) : SizeInv (attempt tz endTime totalDays st o) := by
  unfold SizeInv at h ⊢
  cases hres : fetchChunk o with
  | error e =>
    rw [attempt_error _ _ _ _ _ e hres]
    have := shrink_ge st.safeChunkSize
    have := shrink_le st.safeChunkSize h.1
    dsimp only
    omega
  | ok qs =>
    rw [attempt_ok _ _ _ _ _ qs hres]
    exact h

theorem sizeInv_run (tz : TimeZone) (startDate endDate : Int) (os : List FetchOutcome) :
    SizeInv (fetchWithChunking tz startDate endDate os).state := by
  rw [fetchWithChunking_eq]
  refine chunkLoop_invariant tz _ _ SizeInv
    (fun st o hst _ => sizeInv_attempt tz _ _ st o hst) os _ ?_
  simp [SizeInv, initialState]

/-- Delivering one more outcome to a waiting run of `fetchWithChunking`. -/
theorem fetchWithChunking_snoc_waiting (tz : TimeZone) (startDate endDate : Int)
    (os : List FetchOutcome) (o : FetchOutcome)
    (h : (fetchWithChunking tz startDate endDate os).done = false) :
    fetchWithChunking tz startDate endDate (os ++ [o]) =
      ⟨attempt tz (parseDate endDate) (dateDiffInDays startDate endDate)
          (fetchWithChunking tz startDate endDate os).state o,
        decide (¬ (attempt tz (parseDate endDate) (dateDiffInDays startDate endDate)
          (fetchWithChunking tz startDate endDate os).state o).currentStart ≤
            parseDate endDate), []⟩ := by
  rw [fetchWithChunking_eq] at h ⊢
  rw [fetchWithChunking_eq, chunkLoop_snoc_waiting _ _ _ _ _ _ h, chunkLoop_nil]

theorem fetchWithChunking_snoc_done (tz : TimeZone) (startDate endDate : Int)
    (os : List FetchOutcome) (o : FetchOutcome)
    (h : (fetchWithChunking tz startDate endDate os).done = true) :
    (fetchWithChunking tz startDate endDate (os ++ [o])).state =
      (fetchWithChunking tz startDate endDate os).state := by
  rw [fetchWithChunking_eq] at h ⊢
  rw [fetchWithChunking_eq]
  exact chunkLoop_snoc_done _ _ _ _ _ _ h

theorem waiting_cursor_le (tz : TimeZone) (startDate endDate : Int) (os : List FetchOutcome)
    (h : (fetchWithChunking tz startDate endDate os).done = false) :
    (fetchWithChunking tz startDate endDate os).state.currentStart ≤ parseDate endDate := by
  rw [fetchWithChunking_eq] at h ⊢
  by_contra hc
  have := (chunkLoop_done_iff tz (parseDate endDate) (dateDiffInDays startDate endDate) os
    (initialState startDate)).mpr (by omega)
  rw [this] at h
  exact Bool.noConfusion h

/-- The chunk size of a run that consumed all its outcomes is the initial size
shrunk once per failed attempt. -/
theorem chunkLoop_size (tz : TimeZone) (endTime totalDays : Int) :
    ∀ (os : List FetchOutcome) (st : ChunkState),
      (chunkLoop tz endTime totalDays st os).unused = [] →
        (chunkLoop tz endTime totalDays st os).state.safeChunkSize =
          shrink^[failureCount os] st.safeChunkSize := by
  intro os
  induction os with
  | nil => intro st _; rw [chunkLoop_nil]; rfl
  | cons o os ih =>
    intro st h
    by_cases hc : st.currentStart ≤ endTime
    · rw [chunkLoop_cons_run _ _ _ _ _ _ hc] at h ⊢
      rw [ih _ h]
      cases hres : fetchChunk o with
      | error e =>
        rw [attempt_error _ _ _ _ _ e hres, failureCount_cons_error o os e hres,
          Function.iterate_succ_apply]
      | ok qs =>
        rw [attempt_ok _ _ _ _ _ qs hres, failureCount_cons_ok o os qs hres]
    · rw [chunkLoop_cons_exit _ _ _ _ _ _ hc] at h
      exact absurd h (List.cons_ne_nil _ _)

theorem iterate_shrink_bounds (n : Nat) :
    3 ≤ shrink^[n] 20 ∧ shrink^[n + 1] 20 ≤ shrink^[n] 20 := by
  have h3 : ∀ m : Nat, 3 ≤ shrink^[m] 20 := by
    intro m
    induction m with
    | zero => simp
    | succ k _ => rw [Function.iterate_succ_apply']; exact shrink_ge _
  refine ⟨h3 n, ?_⟩
  rw [Function.iterate_succ_apply']
  exact shrink_le _ (h3 n)

/-- Claim C2, as stated, fails at the floor: after five failed attempts the
chunk size is 3, the run is still waiting, and a sixth failed attempt leaves
the size at 3, which is not smaller. -/
theorem failed_attempt_at_floor_keeps_size :
    (fetchWithChunking utc (dayOfDate 2024 1 1) (dayOfDate 2024 3 1)
      (List.replicate 5 .networkError)).done = false ∧
    fetchChunk .networkError = .error .networkError ∧
    (fetchWithChunking utc (dayOfDate 2024 1 1) (dayOfDate 2024 3 1)
      (List.replicate 5 .networkError)).state.safeChunkSize = 3 ∧
    (fetchWithChunking utc (dayOfDate 2024 1 1) (dayOfDate 2024 3 1)
      (List.replicate 5 .networkError ++ [.networkError])).state.safeChunkSize = 3 ∧
    ¬ ((fetchWithChunking utc (dayOfDate 2024 1 1) (dayOfDate 2024 3 1)
        (List.replicate 5 .networkError ++ [.networkError])).state.safeChunkSize <
      (fetchWithChunking utc (dayOfDate 2024 1 1) (dayOfDate 2024 3 1)
        (List.replicate 5 .networkError)).state.safeChunkSize) :=
  ⟨by decide, rfl, by decide, by decide, by decide⟩

/-- Claim C2, amended: in any time zone, whenever an attempt of a waiting run
fails, with any error, the run keeps waiting, the cursor, the accumulated
records, the processed days and the progress bar are unchanged, the failed
call is recorded, and the next request starts on the same date with chunk size
`max(3, floor(0.7 * size))`, which is never larger than the old size, is
smaller whenever the old size exceeds 3, and is 3 again when the old size is 3. -/
theorem failed_attempt_retries_same_start (tz : TimeZone) (startDate endDate : Int)
    (os : List FetchOutcome) (o : FetchOutcome) (e : ChunkError)
    (hwait : (fetchWithChunking tz startDate endDate os).done = false)
    (hfail : fetchChunk o = .error e) :
    (fetchWithChunking tz startDate endDate (os ++ [o])).done = false ∧
    (fetchWithChunking tz startDate endDate (os ++ [o])).state.currentStart =
      (fetchWithChunking tz startDate endDate os).state.currentStart ∧
    (fetchWithChunking tz startDate endDate (os ++ [o])).state.allQuakes =
      (fetchWithChunking tz startDate endDate os).state.allQuakes ∧
    (fetchWithChunking tz startDate endDate (os ++ [o])).state.processedDays =
      (fetchWithChunking tz startDate endDate os).state.processedDays ∧
    (fetchWithChunking tz startDate endDate (os ++ [o])).state.progressBar =
      (fetchWithChunking tz startDate endDate os).state.progressBar ∧
    (fetchWithChunking tz startDate endDate (os ++ [o])).state.history =
      (fetchWithChunking tz startDate endDate os).state.history ++
        [⟨toISODate (fetchWithChunking tz startDate endDate os).state.currentStart,
          toISODate (chunkEndOf tz (parseDate endDate)
            (fetchWithChunking tz startDate endDate os).state.currentStart
            (fetchWithChunking tz startDate endDate os).state.safeChunkSize),
          (fetchWithChunking tz startDate endDate os).state.safeChunkSize, .error e⟩] ∧
    ((fetchWithChunking tz startDate endDate (os ++ [o])).requests tz
        (parseDate endDate)).getLast? =
      some (toISODate (fetchWithChunking tz startDate endDate os).state.currentStart,
        toISODate (chunkEndOf tz (parseDate endDate)
          (fetchWithChunking tz startDate endDate os).state.currentStart
          (fetchWithChunking tz startDate endDate (os ++ [o])).state.safeChunkSize)) ∧
    (fetchWithChunking tz startDate endDate (os ++ [o])).state.safeChunkSize =
      max 3 ((fetchWithChunking tz startDate endDate os).state.safeChunkSize * 7 / 10) ∧
    (fetchWithChunking tz startDate endDate (os ++ [o])).state.safeChunkSize ≤
      (fetchWithChunking tz startDate endDate os).state.safeChunkSize ∧
    (3 < (fetchWithChunking tz startDate endDate os).state.safeChunkSize →
      (fetchWithChunking tz startDate endDate (os ++ [o])).state.safeChunkSize <
        (fetchWithChunking tz startDate endDate os).state.safeChunkSize) ∧
    ((fetchWithChunking tz startDate endDate os).state.safeChunkSize = 3 →
      (fetchWithChunking tz startDate endDate (os ++ [o])).state.safeChunkSize = 3) := by
  have hcur := waiting_cursor_le tz startDate endDate os hwait
  have hsize := sizeInv_run tz startDate endDate os
  rw [fetchWithChunking_snoc_waiting tz startDate endDate os o hwait,
    attempt_error _ _ _ _ _ e hfail]
  generalize fetchWithChunking tz startDate endDate os = r at hcur hsize
  unfold SizeInv at hsize
  refine ⟨by simpa using hcur, rfl, rfl, rfl, rfl, rfl, ?_, rfl, shrink_le _ hsize.1,
    shrink_lt _, ?_⟩
  · simp [Run.requests, hcur, chunkRange]
  · intro h3
    show shrink r.state.safeChunkSize = 3
    rw [h3]
    rfl

theorem failed_attempt_retries_same_start_witness :
    ((fetchWithChunking europeBerlin (dayOfDate 2024 1 1) (dayOfDate 2024 3 1)
        [okResponse []]).done = false ∧
      fetchChunk (statusResponse 429) = .error .rateLimited) ∧
    (fetchWithChunking europeBerlin (dayOfDate 2024 1 1) (dayOfDate 2024 3 1)
        ([okResponse []] ++ [statusResponse 429])).state.currentStart =
      (fetchWithChunking europeBerlin (dayOfDate 2024 1 1) (dayOfDate 2024 3 1)
        [okResponse []]).state.currentStart :=
  ⟨⟨by decide, rfl⟩,
    (failed_attempt_retries_same_start europeBerlin (dayOfDate 2024 1 1) (dayOfDate 2024 3 1)
      [okResponse []] (statusResponse 429) ChunkError.rateLimited (by decide) rfl).2.1⟩

/-- Claim C3: in `fetchWithChunking`, in any time zone, the chunk size starts
at 20; delivering one more outcome changes it only when that outcome is a
failed attempt of a waiting run, in which case the new size is
`max(3, floor(0.7 * old))`; a successful attempt leaves it unchanged; the size
never increases and never falls below 3; and after a run that consumed all
its outcomes the size is 20 shrunk once per failure, a sequence that is
non-increasing and bounded below by 3 for every number of failures. -/
theorem chunk_size_shrinks_to_floor (tz : TimeZone) (startDate endDate : Int)
    (os : List FetchOutcome) (o : FetchOutcome) :
    (fetchWithChunking tz startDate endDate []).state.safeChunkSize = 20 ∧
    3 ≤ (fetchWithChunking tz startDate endDate (os ++ [o])).state.safeChunkSize ∧
    (fetchWithChunking tz startDate endDate (os ++ [o])).state.safeChunkSize ≤
      (fetchWithChunking tz startDate endDate os).state.safeChunkSize ∧
    (fetchWithChunking tz startDate endDate os).state.safeChunkSize ≤ 20 ∧
    ((fetchWithChunking tz startDate endDate (os ++ [o])).state.safeChunkSize ≠
        (fetchWithChunking tz startDate endDate os).state.safeChunkSize →
      (fetchWithChunking tz startDate endDate os).done = false ∧ payload? o = none) ∧
    ((fetchWithChunking tz startDate endDate os).done = false → payload? o = none →
      (fetchWithChunking tz startDate endDate (os ++ [o])).state.safeChunkSize =
        max 3 ((fetchWithChunking tz startDate endDate os).state.safeChunkSize * 7 / 10)) ∧
    (payload? o ≠ none →
      (fetchWithChunking tz startDate endDate (os ++ [o])).state.safeChunkSize =
        (fetchWithChunking tz startDate endDate os).state.safeChunkSize) ∧
    ((fetchWithChunking tz startDate endDate os).unused = [] →
      (fetchWithChunking tz startDate endDate os).state.safeChunkSize =
        shrink^[failureCount os] 20) ∧
    (∀ n : Nat, 3 ≤ shrink^[n] 20 ∧ shrink^[n + 1] 20 ≤ shrink^[n] 20 ∧
      shrink (shrink^[n] 20) = max 3 (shrink^[n] 20 * 7 / 10)) := by
  have hsize := sizeInv_run tz startDate endDate os
  have hsize2 := sizeInv_run tz startDate endDate (os ++ [o])
  unfold SizeInv at hsize hsize2
  have hclosed : (fetchWithChunking tz startDate endDate os).unused = [] →
      (fetchWithChunking tz startDate endDate os).state.safeChunkSize =
        shrink^[failureCount os] 20 := by
    intro hu
    rw [fetchWithChunking_eq] at hu ⊢
    exact chunkLoop_size _ _ _ os _ hu
  have hiter : ∀ n : Nat, 3 ≤ shrink^[n] 20 ∧ shrink^[n + 1] 20 ≤ shrink^[n] 20 ∧
      shrink (shrink^[n] 20) = max 3 (shrink^[n] 20 * 7 / 10) :=
    fun n => ⟨(iterate_shrink_bounds n).1, (iterate_shrink_bounds n).2, rfl⟩
  refine ⟨rfl, hsize2.1, ?_, hsize.2, ?_, ?_, ?_, hclosed, hiter⟩
  · cases hd : (fetchWithChunking tz startDate endDate os).done with
    | true => rw [fetchWithChunking_snoc_done _ _ _ _ _ hd]
    | false =>
      rw [fetchWithChunking_snoc_waiting _ _ _ _ _ hd]
      cases hres : fetchChunk o with
      | error e => rw [attempt_error _ _ _ _ _ e hres]; exact shrink_le _ hsize.1
      | ok qs => rw [attempt_ok _ _ _ _ _ qs hres]
  · intro hne
    cases hd : (fetchWithChunking tz startDate endDate os).done with
    | true => rw [fetchWithChunking_snoc_done _ _ _ _ _ hd] at hne; exact absurd rfl hne
    | false =>
      refine ⟨rfl, ?_⟩
      rw [fetchWithChunking_snoc_waiting _ _ _ _ _ hd] at hne
      cases hres : fetchChunk o with
      | error e => exact (payload?_eq_none o).mpr ⟨e, hres⟩
      | ok qs => rw [attempt_ok _ _ _ _ _ qs hres] at hne; exact absurd rfl hne
  · intro hd hp
    obtain ⟨e, hres⟩ := (payload?_eq_none o).mp hp
    rw [fetchWithChunking_snoc_waiting _ _ _ _ _ hd, attempt_error _ _ _ _ _ e hres]
    rfl
  · intro hp
    cases hd : (fetchWithChunking tz startDate endDate os).done with
    | true => rw [fetchWithChunking_snoc_done _ _ _ _ _ hd]
    | false =>
      rw [fetchWithChunking_snoc_waiting _ _ _ _ _ hd]
      cases hres : fetchChunk o with
      | error e => exact absurd ((payload?_eq_none o).mpr ⟨e, hres⟩) hp
      | ok qs => rw [attempt_ok _ _ _ _ _ qs hres]

/-! ## Routing in fetchEarthquakesWithFilters -/

/-- Claim C4: when `daysDifference`, the ceiling of the whole days between
start and end (here `endDate - startDate`), exceeds 400,
`fetchEarthquakesWithFilters` issues no request, whatever the time zone and
whatever the network would answer, and shows the validation alert instead of
rendering. -/
theorem range_guard_rejects (tz : TimeZone) (startDate endDate : Int)
    (os : List FetchOutcome) (h : 400 < dateDiffInDays startDate endDate) :
    dateDiffInDays startDate endDate = endDate - startDate ∧
    fetchEarthquakesWithFilters tz startDate endDate os = ⟨[], .alert⟩ ∧
    (fetchEarthquakesWithFilters tz startDate endDate os).requests = [] ∧
    (∀ qs, (fetchEarthquakesWithFilters tz startDate endDate os).display ≠ .rendered qs) := by
  have heq : fetchEarthquakesWithFilters tz startDate endDate os = ⟨[], .alert⟩ := by
    unfold fetchEarthquakesWithFilters
    simp only [gt_iff_lt, h, if_true]
  refine ⟨dateDiffInDays_eq _ _, heq, ?_, ?_⟩
  · rw [heq]
  · intro qs
    rw [heq]
    exact fun hc => Display.noConfusion hc

theorem range_guard_rejects_witness :
    400 < dateDiffInDays (dayOfDate 2023 1 1) (dayOfDate 2024 3 1) ∧
    (fetchEarthquakesWithFilters americaNewYork (dayOfDate 2023 1 1) (dayOfDate 2024 3 1)
      [okResponse [sampleQuake 5 "Honshu"]]).requests = [] :=
  ⟨by decide,
    (range_guard_rejects americaNewYork (dayOfDate 2023 1 1) (dayOfDate 2024 3 1)
      [okResponse [sampleQuake 5 "Honshu"]] (by decide)).2.2.1⟩

theorem fetchSingleRequest_requests (start endDate : Int) (os : List FetchOutcome) :
    (fetchSingleRequest start endDate os).requests = [(start, endDate)] := by
  unfold fetchSingleRequest
  split
  · rfl
  · rfl
  · split
    · rfl
    · split <;> rfl

/-- Up to 35 days `fetchEarthquakesWithFilters` is `fetchSingleRequest`. -/
theorem fetchEarthquakesWithFilters_single (tz : TimeZone) (startDate endDate : Int)
    (os : List FetchOutcome) (h : dateDiffInDays startDate endDate ≤ 35) :
    fetchEarthquakesWithFilters tz startDate endDate os =
      fetchSingleRequest startDate endDate os := by
  have h1 : ¬ dateDiffInDays startDate endDate > 400 := by omega
  have h2 : ¬ dateDiffInDays startDate endDate > 35 := by omega
  unfold fetchEarthquakesWithFilters
  simp only [h1, h2, if_false]

/-- Claim C5: for `daysDifference <= 35`, `fetchEarthquakesWithFilters` behaves
as `fetchSingleRequest` on the whole range, so it issues exactly one request,
with `starttime = startDate` and `endtime = endDate`, and the chunked loop is
not run; for `35 < daysDifference <= 400` its requests and its rendering are
those of `fetchWithChunking(startDate, endDate)`. -/
theorem routing_by_range (tz : TimeZone) (startDate endDate : Int) (os : List FetchOutcome) :
    (dateDiffInDays startDate endDate ≤ 35 →
      fetchEarthquakesWithFilters tz startDate endDate os =
        fetchSingleRequest startDate endDate os ∧
      (fetchEarthquakesWithFilters tz startDate endDate os).requests =
        [(startDate, endDate)]) ∧
    (35 < dateDiffInDays startDate endDate → dateDiffInDays startDate endDate ≤ 400 →
      (fetchEarthquakesWithFilters tz startDate endDate os).requests =
        (fetchWithChunking tz startDate endDate os).requests tz (parseDate endDate) ∧
      (fetchEarthquakesWithFilters tz startDate endDate os).display =
        (match (fetchWithChunking tz startDate endDate os).delivered with
          | some qs => Display.rendered qs
          | none => Display.loading)) := by
  constructor
  · intro h
    have heq := fetchEarthquakesWithFilters_single tz startDate endDate os h
    exact ⟨heq, by rw [heq]; exact fetchSingleRequest_requests _ _ _⟩
  · intro hlo hhi
    have h1 : ¬ dateDiffInDays startDate endDate > 400 := by omega
    have h2 : dateDiffInDays startDate endDate > 35 := hlo
    have heq : fetchEarthquakesWithFilters tz startDate endDate os =
        ⟨(fetchWithChunking tz startDate endDate os).requests tz (parseDate endDate),
          match (fetchWithChunking tz startDate endDate os).delivered with
          | some qs => Display.rendered qs
          | none => Display.loading⟩ := by
      unfold fetchEarthquakesWithFilters
      simp only [h1, h2, if_false, if_true]
    rw [heq]
    exact ⟨rfl, rfl⟩

theorem routing_by_range_witness :
    (dateDiffInDays (dayOfDate 2024 1 1) (dayOfDate 2024 1 16) ≤ 35 ∧
      (fetchEarthquakesWithFilters utc (dayOfDate 2024 1 1) (dayOfDate 2024 1 16)
        [okResponse []]).requests = [(dayOfDate 2024 1 1, dayOfDate 2024 1 16)]) ∧
    (35 < dateDiffInDays (dayOfDate 2024 1 1) (dayOfDate 2024 3 1) ∧
      dateDiffInDays (dayOfDate 2024 1 1) (dayOfDate 2024 3 1) ≤ 400 ∧
      (fetchEarthquakesWithFilters utc (dayOfDate 2024 1 1) (dayOfDate 2024 3 1)
        [okResponse []]).requests =
        (fetchWithChunking utc (dayOfDate 2024 1 1) (dayOfDate 2024 3 1)
          [okResponse []]).requests utc (parseDate (dayOfDate 2024 3 1))) :=
  ⟨⟨by decide,
      ((routing_by_range utc (dayOfDate 2024 1 1) (dayOfDate 2024 1 16) [okResponse []]).1
        (by decide)).2⟩,
    by decide, by decide,
      ((routing_by_range utc (dayOfDate 2024 1 1) (dayOfDate 2024 3 1) [okResponse []]).2
        (by decide) (by decide)).1⟩

/-! ## Classification in fetchChunk -/

/-- Claim C6, as stated, fails on a success status whose body cannot be read:
a 204 response with an empty body is none of the three listed failure cases
(its status is in 200-299 and it has no count), yet `fetchChunk` throws on it
instead of returning the empty list; so does a 200 response whose body is the
JSON value `null`. -/
theorem fetchChunk_fails_on_unreadable_body :
    (Response.ok ⟨204, .undecodable⟩ = true ∧ (204 : Nat) ≠ 429 ∧
      (∀ (c : Nat) (features : Option (List Quake)),
        Body.undecodable ≠ Body.json (some c) features) ∧
      fetchChunk (.response ⟨204, .undecodable⟩) = .error .bodyNotJson ∧
      fetchChunk (.response ⟨204, .undecodable⟩) ≠ .ok []) ∧
    (Response.ok ⟨200, .null⟩ = true ∧ (200 : Nat) ≠ 429 ∧
      (∀ (c : Nat) (features : Option (List Quake)),
        Body.null ≠ Body.json (some c) features) ∧
      fetchChunk (.response ⟨200, .null⟩) = .error .bodyNull ∧
      fetchChunk (.response ⟨200, .null⟩) ≠ .ok []) :=
  ⟨⟨rfl, by decide, fun _ _ h => Body.noConfusion h, rfl,
      fun h => Except.noConfusion h⟩,
    ⟨rfl, by decide, fun _ _ h => Body.noConfusion h, rfl,
      fun h => Except.noConfusion h⟩⟩

/-- Claim C6, amended: `fetchChunk` on a response: status 429 throws the
rate-limit error; any other status outside 200-299 throws the HTTP error; on
a success status, a body that does not decode as JSON or that is `null`
throws; a decoded body with `metadata.count >= 15000` throws the
too-many-records error; a decoded body with a smaller or absent count returns
its `features` list, the empty list when `features` is absent or empty; and
the call throws exactly in these failure cases. -/
theorem fetchChunk_classifies (r : Response) :
    (r.status = 429 → fetchChunk (.response r) = .error .rateLimited) ∧
    (r.ok = false → r.status ≠ 429 →
      fetchChunk (.response r) = .error (.serverError r.status)) ∧
    (r.ok = true → r.body = .undecodable →
      fetchChunk (.response r) = .error .bodyNotJson) ∧
    (r.ok = true → r.body = .null → fetchChunk (.response r) = .error .bodyNull) ∧
    (∀ c features, r.ok = true → r.body = .json (some c) features → 15000 ≤ c →
      fetchChunk (.response r) = .error .tooManyRecords) ∧
    (∀ c features, r.ok = true → r.body = .json (some c) features → c < 15000 →
      fetchChunk (.response r) = .ok (features.getD [])) ∧
    (∀ features, r.ok = true → r.body = .json none features →
      fetchChunk (.response r) = .ok (features.getD [])) ∧
    (∀ count, r.ok = true → r.body = .json count none →
      (∀ c, count = some c → c < 15000) → fetchChunk (.response r) = .ok []) ∧
    (∀ count, r.ok = true → r.body = .json count (some []) →
      (∀ c, count = some c → c < 15000) → fetchChunk (.response r) = .ok []) ∧
    ((∃ e, fetchChunk (.response r) = .error e) ↔
      (r.status = 429 ∨ (r.ok = false ∧ r.status ≠ 429) ∨
        (r.ok = true ∧ r.body = .undecodable) ∨ (r.ok = true ∧ r.body = .null) ∨
        (r.ok = true ∧ ∃ c features, r.body = .json (some c) features ∧ 15000 ≤ c))) := by
  obtain ⟨status, body⟩ := r
  have h429 : Response.ok ⟨429, body⟩ = false := by
    simp [Response.ok]
  refine ⟨?_, ?_, ?_, ?_, ?_, ?_, ?_, ?_, ?_, ?_⟩
  · intro h
    simp only at h
    subst h
    simp [fetchChunk, h429]
  · intro hok hne
    simp only at hne
    simp [fetchChunk, hok, hne]
  · intro hok hb
    simp only at hb
    subst hb
    simp [fetchChunk, hok]
  · intro hok hb
    simp only at hb
    subst hb
    simp [fetchChunk, hok]
  · intro c features hok hb hge
    simp only at hb
    subst hb
    simp [fetchChunk, hok, hge]
  · intro c features hok hb hlt
    simp only at hb
    subst hb
    simp [fetchChunk, hok, hlt]
  · intro features hok hb
    simp only at hb
    subst hb
    simp [fetchChunk, hok]
  · intro count hok hb hc
    simp only at hb
    subst hb
    cases count with
    | none => simp [fetchChunk, hok]
    | some c => simp [fetchChunk, hok, hc c rfl]
  · intro count hok hb hc
    simp only at hb
    subst hb
    cases count with
    | none => simp [fetchChunk, hok]
    | some c => simp [fetchChunk, hok, hc c rfl]
  · cases hok : Response.ok ⟨status, body⟩ with
    | false =>
      by_cases hs : status = 429
      · subst hs
        simp [fetchChunk, h429]
      · simp [fetchChunk, hok, hs]
    | true =>
      have hs : status ≠ 429 := by
        intro hs
        subst hs
        rw [h429] at hok
        exact Bool.noConfusion hok
      cases body with
      | undecodable => simp [fetchChunk, hok, hs]
      | null => simp [fetchChunk, hok, hs]
      | json count features =>
        cases count with
        | none => simp [fetchChunk, hok, hs]
        | some c =>
          by_cases hc : 15000 ≤ c
          · simp [fetchChunk, hok, hs, hc]
          · simp [fetchChunk, hok, hs, hc]

/-! ## Aggregation of the records -/

theorem attempt_allQuakes (tz : TimeZone) (endTime totalDays : Int) (st : ChunkState)
    (o : FetchOutcome) :
    (attempt tz endTime totalDays st o).allQuakes =
      st.allQuakes ++ ([o].filterMap payload?).flatten := by
  cases hres : fetchChunk o with
  | error e => rw [attempt_error _ _ _ _ _ e hres]; simp [payload?, hres]
  | ok qs => rw [attempt_ok _ _ _ _ _ qs hres]; simp [payload?, hres]

theorem chunkLoop_allQuakes (tz : TimeZone) (endTime totalDays : Int) :
    ∀ (os : List FetchOutcome) (st : ChunkState),
      (chunkLoop tz endTime totalDays st os).unused = [] →
        (chunkLoop tz endTime totalDays st os).state.allQuakes =
          st.allQuakes ++ (os.filterMap payload?).flatten := by
  intro os
  induction os with
  | nil => intro st _; rw [chunkLoop_nil]; simp
  | cons o os ih =>
    intro st h
    by_cases hc : st.currentStart ≤ endTime
    · rw [chunkLoop_cons_run _ _ _ _ _ _ hc] at h ⊢
      rw [ih _ h, attempt_allQuakes, List.append_assoc, ← List.flatten_append,
        ← List.filterMap_append]
      rfl
    · rw [chunkLoop_cons_exit _ _ _ _ _ _ hc] at h
      exact absurd h (List.cons_ne_nil _ _)

/-- Claim C8: in any time zone, when `fetchWithChunking` has left its loop
after exactly the given attempt outcomes, the list passed to
`renderEarthquakes` and `updateStats` is the concatenation, in attempt order,
of the payloads of the successful attempts, each in payload order; failed
attempts contribute nothing. -/
theorem delivered_is_concat_of_successes (tz : TimeZone) (startDate endDate : Int)
    (os : List FetchOutcome)
    (hdone : (fetchWithChunking tz startDate endDate os).done = true)
    (hall : (fetchWithChunking tz startDate endDate os).unused = []) :
    (fetchWithChunking tz startDate endDate os).delivered =
      some ((os.filterMap payload?).flatten) := by
  unfold Run.delivered
  rw [hdone, if_pos rfl]
  rw [fetchWithChunking_eq] at hall ⊢
  rw [chunkLoop_allQuakes _ _ _ os _ hall]
  rfl

theorem delivered_is_concat_of_successes_witness :
    ((fetchWithChunking utc (dayOfDate 2024 1 1) (dayOfDate 2024 3 1)
        [statusResponse 429, okResponse [sampleQuake 5 "Honshu", sampleQuake 4 "Fiji"],
          okResponse [], okResponse [sampleQuake 6 "Chile"], okResponse [],
          okResponse [sampleQuake 3 "Crete"]]).done = true ∧
      (fetchWithChunking utc (dayOfDate 2024 1 1) (dayOfDate 2024 3 1)
        [statusResponse 429, okResponse [sampleQuake 5 "Honshu", sampleQuake 4 "Fiji"],
          okResponse [], okResponse [sampleQuake 6 "Chile"], okResponse [],
          okResponse [sampleQuake 3 "Crete"]]).unused = []) ∧
    ((fetchWithChunking utc (dayOfDate 2024 1 1) (dayOfDate 2024 3 1)
        [statusResponse 429, okResponse [sampleQuake 5 "Honshu", sampleQuake 4 "Fiji"],
          okResponse [], okResponse [sampleQuake 6 "Chile"], okResponse [],
          okResponse [sampleQuake 3 "Crete"]]).state.history.map
        (fun a => (a.chunkStart, a.size))).take 2 =
      [(dayOfDate 2024 1 1, 20), (dayOfDate 2024 1 1, 14)] ∧
    (fetchWithChunking utc (dayOfDate 2024 1 1) (dayOfDate 2024 3 1)
        [statusResponse 429, okResponse [sampleQuake 5 "Honshu", sampleQuake 4 "Fiji"],
          okResponse [], okResponse [sampleQuake 6 "Chile"], okResponse [],
          okResponse [sampleQuake 3 "Crete"]]).delivered =
      some [sampleQuake 5 "Honshu", sampleQuake 4 "Fiji", sampleQuake 6 "Chile",
        sampleQuake 3 "Crete"] :=
  ⟨⟨by decide, by decide⟩, by decide,
    (delivered_is_concat_of_successes utc (dayOfDate 2024 1 1) (dayOfDate 2024 3 1)
      [statusResponse 429, okResponse [sampleQuake 5 "Honshu", sampleQuake 4 "Fiji"],
        okResponse [], okResponse [sampleQuake 6 "Chile"], okResponse [],
        okResponse [sampleQuake 3 "Crete"]] (by decide) (by decide)).trans rfl⟩

/-! ## The strongest record -/

theorem foldl_updateMax_some : ∀ (rest pre mid : List Quake) (m : Quake),
    (∀ p ∈ pre, p.mag < m.mag) → (∀ p ∈ mid, p.mag ≤ m.mag) →
    ∃ (pre1 : List Quake) (q : Quake) (post1 : List Quake),
      pre ++ m :: mid ++ rest = pre1 ++ q :: post1 ∧
      rest.foldl updateMax (some m) = some q ∧
      (∀ p ∈ pre1, p.mag < q.mag) ∧ (∀ p ∈ post1, p.mag ≤ q.mag) := by
  intro rest
  induction rest with
  | nil =>
    intro pre mid m hpre hmid
    exact ⟨pre, m, mid, by simp, rfl, hpre, hmid⟩
  | cons x rest ih =>
    intro pre mid m hpre hmid
    by_cases hx : x.mag > m.mag
    · have hstep : updateMax (some m) x = some x := by simp [updateMax, hx]
      obtain ⟨pre1, q, post1, heq, hfold, h1, h2⟩ := ih (pre ++ m :: mid) [] x
        (by
          intro p hp
          rcases List.mem_append.mp hp with hp | hp
          · exact lt_trans (hpre p hp) hx
          · rcases List.mem_cons.mp hp with rfl | hp
            · exact hx
            · exact lt_of_le_of_lt (hmid p hp) hx)
        (by intro p hp; simp at hp)
      refine ⟨pre1, q, post1, ?_, ?_, h1, h2⟩
      · rw [← heq]; simp
      · rw [List.foldl_cons, hstep]; exact hfold
    · have hstep : updateMax (some m) x = some m := by simp [updateMax, hx]
      obtain ⟨pre1, q, post1, heq, hfold, h1, h2⟩ := ih pre (mid ++ [x]) m hpre
        (by
          intro p hp
          rcases List.mem_append.mp hp with hp | hp
          · exact hmid p hp
          · rw [List.mem_singleton] at hp
            subst hp
            exact not_lt.mp hx)
      refine ⟨pre1, q, post1, ?_, ?_, h1, h2⟩
      · rw [← heq]; simp
      · rw [List.foldl_cons, hstep]; exact hfold

/-- Claim C9: for a non-empty list `renderEarthquakes` leaves in
`maxMagnitudeEq` the first record of maximal magnitude: the list splits around
the selected record so that every earlier record has a strictly smaller
magnitude and every later one a magnitude that is not larger.  For four
records of magnitudes 3.0, 5.5, 5.5, 2.0 that is the record at index 1, and
for the empty list nothing is selected. -/
theorem strongest_is_first_maximum (earthquakes : List Quake) (hne : earthquakes ≠ []) :
    (∃ (before : List Quake) (q : Quake) (after : List Quake),
      earthquakes = before ++ q :: after ∧
      renderEarthquakes earthquakes = some q ∧
      earthquakes[before.length]? = some q ∧
      (∀ p ∈ before, p.mag < q.mag) ∧ (∀ p ∈ after, p.mag ≤ q.mag)) ∧
    (∀ q0 q1 q2 q3 : Quake, q0.mag = 3 → q1.mag = 11 / 2 → q2.mag = 11 / 2 → q3.mag = 2 →
      renderEarthquakes [q0, q1, q2, q3] = some q1) ∧
    renderEarthquakes [] = none := by
  refine ⟨?_, ?_, rfl⟩
  · cases earthquakes with
    | nil => exact absurd rfl hne
    | cons q0 rest =>
      obtain ⟨pre1, q, post1, heq, hfold, h1, h2⟩ := foldl_updateMax_some rest [] [] q0
        (by intro p hp; simp at hp) (by intro p hp; simp at hp)
      have heq2 : q0 :: rest = pre1 ++ q :: post1 := by simpa using heq
      refine ⟨pre1, q, post1, heq2, ?_, ?_, h1, h2⟩
      · simp only [renderEarthquakes, List.isEmpty_cons, Bool.false_eq_true, if_false,
          List.foldl_cons]
        exact hfold
      · rw [heq2, List.getElem?_append_right (le_refl _)]; simp
  · intro q0 q1 q2 q3 h0 h1 h2 h3
    have e2 : updateMax (some q0) q1 = some q1 := by
      have : q1.mag > q0.mag := by rw [h0, h1]; norm_num
      simp only [updateMax, this, if_true]
    have e3 : updateMax (some q1) q2 = some q1 := by
      have : ¬ q2.mag > q1.mag := by rw [h1, h2]; norm_num
      simp only [updateMax, this, if_false]
    have e4 : updateMax (some q1) q3 = some q1 := by
      have : ¬ q3.mag > q1.mag := by rw [h1, h3]; norm_num
      simp only [updateMax, this, if_false]
    simp only [renderEarthquakes, List.isEmpty_cons, Bool.false_eq_true, if_false,
      List.foldl_cons, List.foldl_nil]
    rw [show updateMax none q0 = some q0 from rfl, e2, e3, e4]

theorem strongest_is_first_maximum_witness :
    [sampleQuake 3 "Honshu", sampleQuake (11 / 2) "Fiji", sampleQuake (11 / 2) "Chile",
        sampleQuake 2 "Crete"] ≠ [] ∧
    renderEarthquakes [sampleQuake 3 "Honshu", sampleQuake (11 / 2) "Fiji",
        sampleQuake (11 / 2) "Chile", sampleQuake 2 "Crete"] =
      some (sampleQuake (11 / 2) "Fiji") :=
  ⟨List.cons_ne_nil _ _,
    (strongest_is_first_maximum [sampleQuake 3 "Honshu", sampleQuake (11 / 2) "Fiji",
      sampleQuake (11 / 2) "Chile", sampleQuake 2 "Crete"] (List.cons_ne_nil _ _)).2.1
      _ _ _ _ rfl rfl rfl rfl⟩

/-! ## Progress accounting -/

/-- Claim C10, evaluated on its own scenario: for start 2024-01-01 and end
2024-03-01 (`totalDays = 60`) with every fetch succeeding, the loop exits
after exactly three chunks, 01-01..01-21, 01-22..02-11 and 02-12..03-01, and
the result is delivered once; but `processedDays` ends at 58, not 60, and
the last progress value is 97, not 100.  The values are the same in UTC, in
Europe/Berlin and in America/New_York. -/
theorem sixty_day_scenario_progress :
    dateDiffInDays (dayOfDate 2024 1 1) (dayOfDate 2024 3 1) = 60 ∧
    (fetchWithChunking utc (dayOfDate 2024 1 1) (dayOfDate 2024 3 1)
      [okResponse [], okResponse [], okResponse []]).done = true ∧
    (fetchWithChunking utc (dayOfDate 2024 1 1) (dayOfDate 2024 3 1)
      [okResponse [], okResponse [], okResponse []]).unused = [] ∧
    (fetchWithChunking utc (dayOfDate 2024 1 1) (dayOfDate 2024 3 1)
      [okResponse [], okResponse []]).done = false ∧
    (fetchWithChunking utc (dayOfDate 2024 1 1) (dayOfDate 2024 3 1)
      [okResponse [], okResponse [], okResponse []]).requests utc
        (parseDate (dayOfDate 2024 3 1)) =
      [(dayOfDate 2024 1 1, dayOfDate 2024 1 21), (dayOfDate 2024 1 22, dayOfDate 2024 2 11),
        (dayOfDate 2024 2 12, dayOfDate 2024 3 1)] ∧
    (fetchWithChunking utc (dayOfDate 2024 1 1) (dayOfDate 2024 3 1)
      [okResponse [], okResponse [], okResponse []]).state.processedDays = 58 ∧
    (fetchWithChunking utc (dayOfDate 2024 1 1) (dayOfDate 2024 3 1)
      [okResponse [], okResponse [], okResponse []]).state.progressBar =
        some (.percent 97) ∧
    fetchEarthquakesWithFilters utc (dayOfDate 2024 1 1) (dayOfDate 2024 3 1)
      [okResponse [], okResponse [], okResponse []] =
      ⟨[(dayOfDate 2024 1 1, dayOfDate 2024 1 21), (dayOfDate 2024 1 22, dayOfDate 2024 2 11),
        (dayOfDate 2024 2 12, dayOfDate 2024 3 1)], .rendered []⟩ ∧
    fetchEarthquakesWithFilters europeBerlin (dayOfDate 2024 1 1) (dayOfDate 2024 3 1)
      [okResponse [], okResponse [], okResponse []] =
      ⟨[(dayOfDate 2024 1 1, dayOfDate 2024 1 21), (dayOfDate 2024 1 22, dayOfDate 2024 2 11),
        (dayOfDate 2024 2 12, dayOfDate 2024 3 1)], .rendered []⟩ ∧
    (fetchWithChunking europeBerlin (dayOfDate 2024 1 1) (dayOfDate 2024 3 1)
      [okResponse [], okResponse [], okResponse []]).state.progressBar =
        some (.percent 97) ∧
    fetchEarthquakesWithFilters americaNewYork (dayOfDate 2024 1 1) (dayOfDate 2024 3 1)
      [okResponse [], okResponse [], okResponse []] =
      ⟨[(dayOfDate 2024 1 1, dayOfDate 2024 1 21), (dayOfDate 2024 1 22, dayOfDate 2024 2 11),
        (dayOfDate 2024 2 12, dayOfDate 2024 3 1)], .rendered []⟩ ∧
    (fetchWithChunking americaNewYork (dayOfDate 2024 1 1) (dayOfDate 2024 3 1)
      [okResponse [], okResponse [], okResponse []]).state.progressBar =
        some (.percent 97) := by
  decide

/-! ## The record ceiling on the single-request path -/

/-- On a success status with a decoded body `fetchSingleRequest` renders the
`features` of the payload without reading `metadata.count`. -/
theorem fetchSingleRequest_ok (start endDate : Int) (r : Response) (os : List FetchOutcome)
    (count : Option Nat) (features : Option (List Quake))
    (hok : r.ok = true) (hbody : r.body = .json count features) :
    fetchSingleRequest start endDate (.response r :: os) =
      ⟨[(start, endDate)], .rendered (features.getD [])⟩ := by
  simp [fetchSingleRequest, hok, hbody]

/-- On the single-request path a success response is rendered whatever its
record count, also when `fetchChunk` rejects the same response for reaching
the ceiling. -/
theorem single_request_renders_any_count (tz : TimeZone) (startDate endDate : Int)
    (r : Response) (os : List FetchOutcome) (c : Nat) (features : Option (List Quake))
    (h : dateDiffInDays startDate endDate ≤ 35) (hok : r.ok = true)
    (hbody : r.body = .json (some c) features) (hge : 15000 ≤ c) :
    fetchEarthquakesWithFilters tz startDate endDate (.response r :: os) =
      ⟨[(startDate, endDate)], .rendered (features.getD [])⟩ ∧
    fetchChunk (.response r) = .error .tooManyRecords := by
  refine ⟨?_, ?_⟩
  · rw [fetchEarthquakesWithFilters_single _ _ _ _ h,
      fetchSingleRequest_ok _ _ _ _ _ _ hok hbody]
  · simp [fetchChunk, hok, hbody, hge]

/-- Claim C11, evaluated at a failing input: for the 35-day query 2024-01-01
to 2024-02-05 and a status-200 response whose `metadata.count` is 15000,
`fetchChunk` throws the too-many-records error, but
`fetchEarthquakesWithFilters`, on its single-request path, issues its one
request and passes all 15000 records to `renderEarthquakes` and
`updateStats`. -/
theorem single_request_skips_ceiling :
    dateDiffInDays (dayOfDate 2024 1 1) (dayOfDate 2024 2 5) = 35 ∧
    overCeilingResponse.ok = true ∧
    overCeilingResponse.body =
      .json (some 15000) (some (List.replicate 15000 (sampleQuake 1 "Alaska"))) ∧
    fetchChunk (.response overCeilingResponse) = .error .tooManyRecords ∧
    fetchEarthquakesWithFilters utc (dayOfDate 2024 1 1) (dayOfDate 2024 2 5)
        [.response overCeilingResponse] =
      ⟨[(dayOfDate 2024 1 1, dayOfDate 2024 2 5)],
        .rendered (List.replicate 15000 (sampleQuake 1 "Alaska"))⟩ :=
  ⟨by decide, rfl, rfl,
    (single_request_renders_any_count utc (dayOfDate 2024 1 1) (dayOfDate 2024 2 5)
      overCeilingResponse [] 15000 _ (by decide) rfl rfl (le_refl _)).2,
    (single_request_renders_any_count utc (dayOfDate 2024 1 1) (dayOfDate 2024 2 5)
      overCeilingResponse [] 15000 _ (by decide) rfl rfl (le_refl _)).1⟩

/-! ## Tiling when local time has a constant offset -/

theorem Tiles_le : ∀ (cs : List (Int × Int)) (lo hi : Int), Tiles cs lo hi → lo ≤ hi + 1 := by
  intro cs
  induction cs with
  | nil => intro lo hi h; simp only [Tiles] at h; omega
  | cons c cs ih =>
    intro lo hi h
    simp only [Tiles] at h
    have := ih _ _ h.2.2
    omega

theorem Tiles_snoc : ∀ (cs : List (Int × Int)) (lo hi b : Int), Tiles cs lo hi → hi + 1 ≤ b →
    Tiles (cs ++ [(hi + 1, b)]) lo b := by
  intro cs
  induction cs with
  | nil =>
    intro lo hi b h hb
    simp only [Tiles] at h
    simp only [List.nil_append, Tiles]
    exact ⟨by omega, by omega, trivial⟩
  | cons c cs ih =>
    intro lo hi b h hb
    simp only [Tiles] at h
    simp only [List.cons_append, Tiles]
    exact ⟨h.1, h.2.1, ih _ _ _ h.2.2 hb⟩

theorem Tiles_count : ∀ (cs : List (Int × Int)) (lo hi : Int), Tiles cs lo hi →
    ∀ d : Int, (cs.filter (covers d)).length = if lo ≤ d ∧ d ≤ hi then 1 else 0 := by
  intro cs
  induction cs with
  | nil =>
    intro lo hi h d
    simp only [Tiles] at h
    simp only [List.filter_nil, List.length_nil]
    split <;> omega
  | cons c cs ih =>
    intro lo hi h d
    simp only [Tiles] at h
    have hle := Tiles_le _ _ _ h.2.2
    have hrec := ih _ _ h.2.2 d
    by_cases hc : c.1 ≤ d ∧ d ≤ c.2
    · have hcov : covers d c = true := by simp [covers, hc.1, hc.2]
      rw [List.filter_cons_of_pos hcov, List.length_cons, hrec]
      split <;> split <;> omega
    · have hcov : ¬ covers d c = true := by
        simp only [covers, Bool.and_eq_true, decide_eq_true_eq]; exact hc
      rw [List.filter_cons_of_neg hcov, hrec]
      split <;> split <;> omega

theorem Tiles_head (cs : List (Int × Int)) (lo hi : Int) (h : Tiles cs lo hi) (hne : lo ≤ hi) :
    cs.head?.map Prod.fst = some lo := by
  cases cs with
  | nil => simp only [Tiles] at h; omega
  | cons c cs => simp only [Tiles] at h; simp [h.1]

theorem Tiles_getLast : ∀ (cs : List (Int × Int)) (lo hi : Int), Tiles cs lo hi → cs ≠ [] →
    cs.getLast?.map Prod.snd = some hi := by
  intro cs
  induction cs with
  | nil => intro lo hi _ hne; exact absurd rfl hne
  | cons c cs ih =>
    intro lo hi h _
    simp only [Tiles] at h
    cases cs with
    | nil =>
      have h2 := h.2.2
      simp only [Tiles] at h2
      simp only [List.getLast?_singleton, Option.map_some', Option.some.injEq]
      omega
    | cons c2 cs =>
      rw [List.getLast?_cons_cons]
      exact ih _ _ h.2.2 (List.cons_ne_nil _ _)

theorem Tiles_mem : ∀ (cs : List (Int × Int)) (lo hi : Int), Tiles cs lo hi →
    ∀ c ∈ cs, lo ≤ c.1 ∧ c.1 ≤ c.2 ∧ c.2 ≤ hi := by
  intro cs
  induction cs with
  | nil => intro lo hi _ c hc; simp at hc
  | cons c0 cs ih =>
    intro lo hi h c hc
    simp only [Tiles] at h
    have hle := Tiles_le _ _ _ h.2.2
    rcases List.mem_cons.mp hc with rfl | hc
    · omega
    · have := ih _ _ h.2.2 c hc
      omega

theorem fetchedChunks_snoc_ok (h : List Attempt) (a b : Int) (n : Nat) (qs : List Quake) :
    fetchedChunks (h ++ [⟨a, b, n, .ok qs⟩]) = fetchedChunks h ++ [(a, b)] := by
  simp [fetchedChunks, List.filterMap_append]

theorem fetchedChunks_snoc_error (h : List Attempt) (a b : Int) (n : Nat) (e : ChunkError) :
    fetchedChunks (h ++ [⟨a, b, n, .error e⟩]) = fetchedChunks h := by
  simp [fetchedChunks, List.filterMap_append]

theorem Tiles_length : ∀ (cs : List (Int × Int)) (lo hi : Int), Tiles cs lo hi →
    (∀ c ∈ cs, c.2 - c.1 ≤ 20) → hi - lo + 1 ≤ 21 * (cs.length : Int) := by
  intro cs
  induction cs with
  | nil =>
    intro lo hi h _
    simp only [Tiles] at h
    simp only [List.length_nil, Nat.cast_zero]
    omega
  | cons c cs ih =>
    intro lo hi h hspan
    simp only [Tiles] at h
    have h1 := ih _ _ h.2.2 (fun c1 hc1 => hspan c1 (List.mem_cons_of_mem _ hc1))
    have h2 := hspan c (List.mem_cons_self _ _)
    simp only [List.length_cons, Nat.cast_add, Nat.cast_one]
    omega

theorem msPerDay_pos : 0 < msPerDay := by decide

theorem parseDate_le_iff (a b : Int) : parseDate a ≤ parseDate b ↔ a ≤ b := by
  unfold parseDate
  exact ⟨fun h => le_of_mul_le_mul_right h msPerDay_pos,
    fun h => mul_le_mul_of_nonneg_right h (le_of_lt msPerDay_pos)⟩

theorem parseDate_add (a n : Int) : parseDate a + n * msPerDay = parseDate (a + n) := by
  unfold parseDate; ring

/-- With a constant offset and the cursor on a UTC midnight the chunk end is
the midnight of `min(cursor + size, end)`. -/
theorem chunkEndOf_fixed (tz : TimeZone) (offset : Int) (h : tz.IsFixed offset)
    (endDate c : Int) (size : Nat) :
    chunkEndOf tz (parseDate endDate) (parseDate c) size =
      parseDate (min (c + (size : Int)) endDate) := by
  unfold chunkEndOf
  simp only [addDays_fixed tz offset h, parseDate_add]
  by_cases hc : c + (size : Int) ≤ endDate
  · have : ¬ parseDate (c + (size : Int)) > parseDate endDate := by
      rw [gt_iff_lt, not_lt, parseDate_le_iff]; exact hc
    rw [if_neg this, min_eq_left hc]
  · have : parseDate (c + (size : Int)) > parseDate endDate := by
      rw [gt_iff_lt, ← not_le, parseDate_le_iff]; exact hc
    rw [if_pos this, min_eq_right (by omega)]

theorem addDays_one_fixed (tz : TimeZone) (offset : Int) (h : tz.IsFixed offset) (c : Int) :
    addDays tz (parseDate c) 1 = parseDate (c + 1) := by
  rw [addDays_fixed tz offset h, parseDate_add]

/-- What a successful iteration does when local time has a constant offset and
the cursor is the midnight of day `c`. -/
theorem attempt_ok_fixed (tz : TimeZone) (offset : Int) (h : tz.IsFixed offset)
    (endDate totalDays c : Int) (st : ChunkState) (o : FetchOutcome) (qs : List Quake)
    (hres : fetchChunk o = .ok qs) (hc : st.currentStart = parseDate c) :
    (attempt tz (parseDate endDate) totalDays st o).currentStart =
        parseDate (min (c + (st.safeChunkSize : Int)) endDate + 1) ∧
    (attempt tz (parseDate endDate) totalDays st o).processedDays =
        st.processedDays + (min (c + (st.safeChunkSize : Int)) endDate - c) ∧
    (attempt tz (parseDate endDate) totalDays st o).safeChunkSize = st.safeChunkSize ∧
    fetchedChunks (attempt tz (parseDate endDate) totalDays st o).history =
        fetchedChunks st.history ++ [(c, min (c + (st.safeChunkSize : Int)) endDate)] := by
  rw [attempt_ok _ _ _ _ _ qs hres, hc, chunkEndOf_fixed tz offset h,
    addDays_one_fixed tz offset h]
  exact ⟨rfl, by simp only [toISODate_parseDate, dateDiffInDays_eq], rfl,
    by simp only [fetchedChunks_snoc_ok, toISODate_parseDate]⟩

theorem tilingInv_initial (startDate endDate : Int) (h : startDate ≤ endDate + 1) :
    TilingInv startDate endDate (initialState startDate) := by
  unfold TilingInv
  simp only [initialState, toISODate_parseDate, fetchedChunks, List.filterMap_nil, Tiles]
  exact ⟨trivial, by omega, h⟩

theorem tilingInv_attempt (tz : TimeZone) (offset : Int) (hz : tz.IsFixed offset)
    (startDate endDate totalDays : Int) (st : ChunkState) (o : FetchOutcome)
    (h : TilingInv startDate endDate st) (hc : st.currentStart ≤ parseDate endDate) :
    TilingInv startDate endDate (attempt tz (parseDate endDate) totalDays st o) := by
  obtain ⟨hal, ht, _⟩ := h
  have hcd : toISODate st.currentStart ≤ endDate := by
    rw [hal, parseDate_le_iff] at hc; exact hc
  cases hres : fetchChunk o with
  | error e =>
    rw [attempt_error _ _ _ _ _ e hres]
    refine ⟨hal, ?_, by dsimp only; omega⟩
    simpa only [fetchedChunks_snoc_error] using ht
  | ok qs =>
    obtain ⟨h1, _, _, h4⟩ := attempt_ok_fixed tz offset hz endDate totalDays _ st o qs hres hal
    unfold TilingInv
    rw [h1, h4, toISODate_parseDate]
    refine ⟨rfl, ?_, by omega⟩
    have := Tiles_snoc _ _ _ (min (toISODate st.currentStart + (st.safeChunkSize : Int)) endDate)
      ht (by omega)
    simpa using this

theorem tilingInv_run (tz : TimeZone) (offset : Int) (hz : tz.IsFixed offset)
    (startDate endDate : Int) (os : List FetchOutcome) (h : startDate ≤ endDate + 1) :
    TilingInv startDate endDate (fetchWithChunking tz startDate endDate os).state := by
  rw [fetchWithChunking_eq]
  exact chunkLoop_invariant tz _ _ (TilingInv startDate endDate)
    (fun st o hst hc => tilingInv_attempt tz offset hz startDate endDate _ st o hst hc) os _
    (tilingInv_initial startDate endDate h)

/-- When local time has a constant offset from UTC, the chunks fetched by a
finished run of `fetchWithChunking` on a range of at least zero days tile
`[startDate, endDate]`. -/
theorem fetchWithChunking_tiles_fixed (tz : TimeZone) (offset : Int) (hz : tz.IsFixed offset)
    (startDate endDate : Int) (os : List FetchOutcome) (hle : startDate ≤ endDate)
    (hdone : (fetchWithChunking tz startDate endDate os).done = true) :
    ((fetchedChunks (fetchWithChunking tz startDate endDate os).state.history).head?.map
        Prod.fst = some startDate) ∧
    ((fetchedChunks (fetchWithChunking tz startDate endDate os).state.history).getLast?.map
        Prod.snd = some endDate) ∧
    (∀ c ∈ fetchedChunks (fetchWithChunking tz startDate endDate os).state.history,
        startDate ≤ c.1 ∧ c.1 ≤ c.2 ∧ c.2 ≤ endDate) ∧
    (∀ d : Int, startDate ≤ d → d ≤ endDate →
        ((fetchedChunks (fetchWithChunking tz startDate endDate os).state.history).filter
          (covers d)).length = 1) := by
  obtain ⟨hal, ht, hcur⟩ := tilingInv_run tz offset hz startDate endDate os (by omega)
  have hpast : parseDate endDate <
      (fetchWithChunking tz startDate endDate os).state.currentStart :=
    (chunkLoop_done_iff tz _ _ os _).mp hdone
  have hpast2 : endDate < toISODate (fetchWithChunking tz startDate endDate os).state.currentStart := by
    rw [hal, ← not_le, parseDate_le_iff] at hpast
    omega
  have hend : toISODate (fetchWithChunking tz startDate endDate os).state.currentStart - 1
      = endDate := by
    omega
  rw [hend] at ht
  have hhead := Tiles_head _ _ _ ht hle
  have hne : fetchedChunks (fetchWithChunking tz startDate endDate os).state.history ≠ [] := by
    intro hnil
    rw [hnil] at hhead
    simp at hhead
  refine ⟨hhead, Tiles_getLast _ _ _ ht hne, Tiles_mem _ _ _ ht, ?_⟩
  intro d hd1 hd2
  rw [Tiles_count _ _ _ ht d, if_pos ⟨hd1, hd2⟩]

/-- When local time has a constant offset and the cursor is the midnight of a
day `c` not after `endDate`, the chunk computed by the loop body is
`[c, min(c + size, endDate)]`: a non-empty range of at most `size` days that
does not pass `endDate`, and `[c, c]` when `c = endDate`. -/
theorem chunkRange_fixed (tz : TimeZone) (offset : Int) (hz : tz.IsFixed offset)
    (endDate c : Int) (size : Nat) (hc : c ≤ endDate) :
    chunkRange tz (parseDate endDate) (parseDate c) size =
      (c, min (c + (size : Int)) endDate) ∧
    c ≤ min (c + (size : Int)) endDate ∧
    min (c + (size : Int)) endDate - c ≤ (size : Int) ∧
    min (c + (size : Int)) endDate ≤ endDate ∧
    (c = endDate → chunkRange tz (parseDate endDate) (parseDate c) size = (c, c)) := by
  have heq : chunkRange tz (parseDate endDate) (parseDate c) size =
      (c, min (c + (size : Int)) endDate) := by
    unfold chunkRange
    rw [chunkEndOf_fixed tz offset hz, toISODate_parseDate, toISODate_parseDate]
  refine ⟨heq, by omega, by omega, by omega, ?_⟩
  intro hce
  rw [heq, min_eq_right (by omega), hce]

/-! ## Progress accounting when local time has a constant offset -/

theorem progressInv_attempt (tz : TimeZone) (offset : Int) (hz : tz.IsFixed offset)
    (startDate endDate totalDays : Int) (st : ChunkState)
    (o : FetchOutcome) (h : ProgressInv startDate st) :
    ProgressInv startDate (attempt tz (parseDate endDate) totalDays st o) := by
  obtain ⟨hal, hp⟩ := h
  cases hres : fetchChunk o with
  | error e =>
    rw [attempt_error _ _ _ _ _ e hres]
    refine ⟨hal, ?_⟩
    simpa only [fetchedChunks_snoc_error] using hp
  | ok qs =>
    obtain ⟨h1, h2, _, h4⟩ := attempt_ok_fixed tz offset hz endDate totalDays _ st o qs hres hal
    unfold ProgressInv
    rw [h1, h2, h4, toISODate_parseDate]
    refine ⟨rfl, ?_⟩
    simp only [List.length_append, List.length_singleton, Nat.cast_add, Nat.cast_one]
    omega

theorem spanInv_attempt (tz : TimeZone) (offset : Int) (hz : tz.IsFixed offset)
    (endDate totalDays : Int) (st : ChunkState)
    (o : FetchOutcome) (h : SpanInv st) :
    SpanInv (attempt tz (parseDate endDate) totalDays st o) := by
  obtain ⟨hal, hs, hspan⟩ := h
  cases hres : fetchChunk o with
  | error e =>
    rw [attempt_error _ _ _ _ _ e hres]
    simp only [SpanInv, fetchedChunks_snoc_error]
    refine ⟨hal, ?_, hspan⟩
    unfold shrink
    omega
  | ok qs =>
    obtain ⟨h1, _, h3, h4⟩ := attempt_ok_fixed tz offset hz endDate totalDays _ st o qs hres hal
    unfold SpanInv
    rw [h1, h3, h4, toISODate_parseDate]
    refine ⟨rfl, hs, ?_⟩
    intro c hc
    rcases List.mem_append.mp hc with hc | hc
    · exact hspan c hc
    · rw [List.mem_singleton] at hc
      subst hc
      dsimp only
      omega

/-- When local time has a constant offset, on the chunked path `processedDays`
ends at `totalDays + 1` minus the number of fetched chunks, of which there are
at least two, hence below `totalDays`, whatever the outcomes were. -/
theorem processedDays_short_of_total (tz : TimeZone) (offset : Int) (hz : tz.IsFixed offset)
    (startDate endDate : Int) (os : List FetchOutcome)
    (hlo : 35 < dateDiffInDays startDate endDate)
    (hdone : (fetchWithChunking tz startDate endDate os).done = true) :
    (fetchWithChunking tz startDate endDate os).state.processedDays =
      dateDiffInDays startDate endDate + 1 -
        ((fetchedChunks (fetchWithChunking tz startDate endDate os).state.history).length
          : Int) ∧
    2 ≤ (fetchedChunks (fetchWithChunking tz startDate endDate os).state.history).length ∧
    (fetchWithChunking tz startDate endDate os).state.processedDays <
      dateDiffInDays startDate endDate := by
  have hd := dateDiffInDays_eq startDate endDate
  have hprog : ProgressInv startDate (fetchWithChunking tz startDate endDate os).state := by
    rw [fetchWithChunking_eq]
    refine chunkLoop_invariant tz _ _ (ProgressInv startDate)
      (fun st o hst _ => progressInv_attempt tz offset hz startDate endDate _ st o hst) os _ ?_
    simp [ProgressInv, initialState, fetchedChunks, toISODate_parseDate]
  have hspan : SpanInv (fetchWithChunking tz startDate endDate os).state := by
    rw [fetchWithChunking_eq]
    refine chunkLoop_invariant tz _ _ SpanInv
      (fun st o hst _ => spanInv_attempt tz offset hz endDate _ st o hst) os _ ?_
    simp [SpanInv, initialState, fetchedChunks, toISODate_parseDate]
  obtain ⟨hal, ht, hcur⟩ := tilingInv_run tz offset hz startDate endDate os (by omega)
  have hpast : parseDate endDate <
      (fetchWithChunking tz startDate endDate os).state.currentStart :=
    (chunkLoop_done_iff tz _ _ os _).mp hdone
  have hpast2 : endDate <
      toISODate (fetchWithChunking tz startDate endDate os).state.currentStart := by
    rw [hal, ← not_le, parseDate_le_iff] at hpast
    omega
  have hlen := Tiles_length _ _ _ ht hspan.2.2
  have hp := hprog.2
  refine ⟨by omega, by omega, by omega⟩

/-! ## Termination of the loop -/

theorem msPerDay_eq : msPerDay = 86400000 := by decide

theorem countInv_attempt (tz : TimeZone) (lo hi : Int) (hz : tz.Within lo hi)
    (hw : hi - lo < msPerDay) (startTime endTime totalDays : Int) (st : ChunkState)
    (o : FetchOutcome) (h : CountInv startTime endTime (hi - lo) st)
    (hc : st.currentStart ≤ endTime) :
    CountInv startTime endTime (hi - lo) (attempt tz endTime totalDays st o) := by
  obtain ⟨hsize, hup, hcount⟩ := h
  cases hres : fetchChunk o with
  | error e =>
    rw [attempt_error _ _ _ _ _ e hres]
    simp only [CountInv, fetchedChunks_snoc_error]
    exact ⟨shrink_ge _, hup, hcount⟩
  | ok qs =>
    rw [attempt_ok _ _ _ _ _ qs hres]
    simp only [CountInv, fetchedChunks_snoc_ok, List.length_append, List.length_singleton,
      Nat.cast_add, Nat.cast_one]
    have ha1 := addDays_ge tz lo hi hz st.currentStart (st.safeChunkSize : Int)
    have hb1 := addDays_ge tz lo hi hz
      (chunkEndOf tz endTime st.currentStart st.safeChunkSize) 1
    have hb2 := addDays_le tz lo hi hz
      (chunkEndOf tz endTime st.currentStart st.safeChunkSize) 1
    have hk : ((fetchedChunks st.history).length : Int) * msPerDay ≤
        st.currentStart - startTime := by
      rcases hcount with h1 | h2
      · exact h1
      · omega
    have hsz : (3 : Int) ≤ (st.safeChunkSize : Int) := by exact_mod_cast hsize
    rw [msPerDay_eq] at *
    by_cases hcl : addDays tz st.currentStart (st.safeChunkSize : Int) > endTime
    · have hce : chunkEndOf tz endTime st.currentStart st.safeChunkSize = endTime := by
        unfold chunkEndOf; simp only [hcl, if_true]
      rw [hce] at hb1 hb2 ⊢
      refine ⟨hsize, by omega, Or.inr ⟨by omega, by omega⟩⟩
    · have hce : chunkEndOf tz endTime st.currentStart st.safeChunkSize =
          addDays tz st.currentStart (st.safeChunkSize : Int) := by
        unfold chunkEndOf; simp only [hcl, if_false]
      rw [hce] at hb1 hb2 ⊢
      refine ⟨hsize, by omega, Or.inl (by omega)⟩

theorem countInv_run (tz : TimeZone) (lo hi : Int) (hz : tz.Within lo hi)
    (hw : hi - lo < msPerDay) (startDate endDate : Int) (hle : startDate ≤ endDate)
    (os : List FetchOutcome) :
    CountInv (parseDate startDate) (parseDate endDate) (hi - lo)
      (fetchWithChunking tz startDate endDate os).state := by
  rw [fetchWithChunking_eq]
  refine chunkLoop_invariant tz _ _ (CountInv (parseDate startDate) (parseDate endDate) (hi - lo))
    (fun st o hst hc => countInv_attempt tz lo hi hz hw _ _ _ st o hst hc) os _ ?_
  have h0 := (hz 0).1
  have hp := (parseDate_le_iff startDate endDate).mpr hle
  have hd := msPerDay_pos
  refine ⟨by simp [initialState], ?_, Or.inl ?_⟩
  · show parseDate startDate ≤ parseDate endDate + msPerDay + (hi - lo)
    omega
  · show ((fetchedChunks (initialState startDate).history).length : Int) * msPerDay ≤
      parseDate startDate - parseDate startDate
    simp [initialState, fetchedChunks]

/-- A run that consumed all its outcomes has fetched one chunk per successful
outcome. -/
theorem chunkLoop_fetched_length (tz : TimeZone) (endTime totalDays : Int) :
    ∀ (os : List FetchOutcome) (st : ChunkState),
      (chunkLoop tz endTime totalDays st os).unused = [] →
        (fetchedChunks (chunkLoop tz endTime totalDays st os).state.history).length =
          (fetchedChunks st.history).length + (os.filterMap payload?).length := by
  intro os
  induction os with
  | nil => intro st _; rw [chunkLoop_nil]; simp
  | cons o os ih =>
    intro st h
    by_cases hc : st.currentStart ≤ endTime
    · rw [chunkLoop_cons_run _ _ _ _ _ _ hc] at h ⊢
      rw [ih _ h]
      cases hres : fetchChunk o with
      | error e =>
        rw [attempt_error _ _ _ _ _ e hres]
        simp [fetchedChunks_snoc_error, payload?, hres]
      | ok qs =>
        rw [attempt_ok _ _ _ _ _ qs hres]
        simp [fetchedChunks_snoc_ok, payload?, hres]
        omega
    · rw [chunkLoop_cons_exit _ _ _ _ _ _ hc] at h
      exact absurd h (List.cons_ne_nil _ _)

/-- In a time zone whose offsets vary by less than a day, a run that is still
waiting has seen at most `endDate - startDate` successful outcomes. -/
theorem waiting_successes_le (tz : TimeZone) (lo hi : Int) (hz : tz.Within lo hi)
    (hw : hi - lo < msPerDay) (startDate endDate : Int) (hle : startDate ≤ endDate)
    (os : List FetchOutcome)
    (h : (fetchWithChunking tz startDate endDate os).done = false) :
    ((os.filterMap payload?).length : Int) ≤ endDate - startDate := by
  have hcur := waiting_cursor_le tz startDate endDate os h
  obtain ⟨_, _, hcount⟩ := countInv_run tz lo hi hz hw startDate endDate hle os
  rw [fetchWithChunking_eq] at h hcount hcur
  have hlen := chunkLoop_fetched_length tz _ _ os (initialState startDate)
    (chunkLoop_unused_of_waiting _ _ _ os _ h)
  have hinit : (fetchedChunks (initialState startDate).history).length = 0 := rfl
  rw [hlen, hinit, Nat.zero_add] at hcount
  unfold parseDate at hcount hcur
  rw [msPerDay_eq] at hcount hcur
  rcases hcount with h1 | h2
  · omega
  · omega

theorem firstOutcomes_succ (f : Nat → FetchOutcome) (n : Nat) :
    firstOutcomes f (n + 1) = firstOutcomes f n ++ [f n] := by
  simp [firstOutcomes, List.range_succ]

theorem successes_firstOutcomes_mono (f : Nat → FetchOutcome) (n m : Nat) (h : n ≤ m) :
    ((firstOutcomes f n).filterMap payload?).length ≤
      ((firstOutcomes f m).filterMap payload?).length := by
  induction m with
  | zero =>
    have : n = 0 := by omega
    subst this
    exact le_refl _
  | succ k ih =>
    by_cases hk : n ≤ k
    · have := ih hk
      rw [firstOutcomes_succ, List.filterMap_append, List.length_append]
      omega
    · have : n = k + 1 := by omega
      subst this
      exact le_refl _

/-- An unending sequence with successes arbitrarily far out has prefixes with
any number of successes. -/
theorem successes_firstOutcomes_unbounded (f : Nat → FetchOutcome)
    (h : ∀ N, ∃ n, N ≤ n ∧ payload? (f n) ≠ none) :
    ∀ k : Nat, ∃ n, k ≤ ((firstOutcomes f n).filterMap payload?).length := by
  intro k
  induction k with
  | zero => exact ⟨0, Nat.zero_le _⟩
  | succ k ih =>
    obtain ⟨n, hn⟩ := ih
    obtain ⟨m, hm, hs⟩ := h n
    refine ⟨m + 1, ?_⟩
    have hmono := successes_firstOutcomes_mono f n m hm
    obtain ⟨qs, hqs⟩ := Option.ne_none_iff_exists'.mp hs
    rw [firstOutcomes_succ, List.filterMap_append, List.length_append]
    simp only [List.filterMap_cons, hqs, List.filterMap_nil, List.length_singleton]
    omega

/-- In a time zone whose offsets vary by less than a day, with successes
arbitrarily far out the loop exits after finitely many outcomes. -/
theorem terminates_of_recurring_success (tz : TimeZone) (lo hi : Int) (hz : tz.Within lo hi)
    (hw : hi - lo < msPerDay) (startDate endDate : Int) (hle : startDate ≤ endDate)
    (f : Nat → FetchOutcome) (h : ∀ N, ∃ n, N ≤ n ∧ payload? (f n) ≠ none) :
    ∃ n, (fetchWithChunking tz startDate endDate (firstOutcomes f n)).done = true := by
  obtain ⟨n, hn⟩ := successes_firstOutcomes_unbounded f h ((endDate - startDate).toNat + 1)
  refine ⟨n, ?_⟩
  cases hd : (fetchWithChunking tz startDate endDate (firstOutcomes f n)).done with
  | true => rfl
  | false =>
    have := waiting_successes_le tz lo hi hz hw startDate endDate hle _ hd
    omega

/-- While every attempt fails the loop keeps waiting at the same cursor. -/
theorem chunkLoop_all_failures (tz : TimeZone) (endTime totalDays : Int) :
    ∀ (os : List FetchOutcome) (st : ChunkState), st.currentStart ≤ endTime →
      (∀ o ∈ os, payload? o = none) →
        (chunkLoop tz endTime totalDays st os).done = false ∧
        (chunkLoop tz endTime totalDays st os).state.currentStart = st.currentStart := by
  intro os
  induction os with
  | nil =>
    intro st hc _
    rw [chunkLoop_nil]
    exact ⟨by simpa using hc, rfl⟩
  | cons o os ih =>
    intro st hc hall
    obtain ⟨e, hres⟩ := (payload?_eq_none o).mp (hall o (List.mem_cons_self _ _))
    rw [chunkLoop_cons_run _ _ _ _ _ _ hc]
    have hcur : (attempt tz endTime totalDays st o).currentStart = st.currentStart := by
      rw [attempt_error _ _ _ _ _ e hres]
    have := ih (attempt tz endTime totalDays st o) (by rw [hcur]; exact hc)
      (fun o1 ho1 => hall o1 (List.mem_cons_of_mem _ ho1))
    exact ⟨this.1, this.2.trans hcur⟩

/-- Termination of the loop of `fetchWithChunking` in a time zone whose
offsets from UTC vary by less than a day, for a query with
`startDate <= endDate`: a successful attempt sets the cursor to the chunk end
moved by one local day, an instant strictly after the old cursor (a full day
after it or more when the offset is constant); at any time at most
`daysDifference + 1` chunks have been fetched; once `daysDifference + 1`
outcomes were successes the loop has exited; for an unending sequence of
outcomes with only finitely many failures the loop exits after finitely many
of them; a loop that never exits has from some point on received failures
only; and while every outcome is a failure the loop keeps waiting. -/
theorem loop_exits_unless_failing_forever (tz : TimeZone) (lo hi : Int)
    (hz : tz.Within lo hi) (hw : hi - lo < msPerDay) (startDate endDate : Int)
    (hle : startDate ≤ endDate) :
    (∀ (totalDays : Int) (st : ChunkState) (o : FetchOutcome) (qs : List Quake),
      st.currentStart ≤ parseDate endDate → 1 ≤ st.safeChunkSize → fetchChunk o = .ok qs →
      (attempt tz (parseDate endDate) totalDays st o).currentStart =
        addDays tz (chunkEndOf tz (parseDate endDate) st.currentStart st.safeChunkSize) 1 ∧
      st.currentStart < (attempt tz (parseDate endDate) totalDays st o).currentStart ∧
      (hi = lo → st.currentStart + msPerDay ≤
        (attempt tz (parseDate endDate) totalDays st o).currentStart)) ∧
    (∀ os : List FetchOutcome,
      ((fetchedChunks (fetchWithChunking tz startDate endDate os).state.history).length
          : Int) ≤ dateDiffInDays startDate endDate + 1) ∧
    (∀ os : List FetchOutcome,
      dateDiffInDays startDate endDate + 1 ≤ ((os.filterMap payload?).length : Int) →
      (fetchWithChunking tz startDate endDate os).done = true) ∧
    (∀ f : Nat → FetchOutcome, (∃ N, ∀ n, N ≤ n → payload? (f n) ≠ none) →
      ∃ n, (fetchWithChunking tz startDate endDate (firstOutcomes f n)).done = true) ∧
    (∀ f : Nat → FetchOutcome,
      (∀ n, (fetchWithChunking tz startDate endDate (firstOutcomes f n)).done = false) →
      ∃ N, ∀ n, N ≤ n → payload? (f n) = none) ∧
    (∀ os : List FetchOutcome, (∀ o ∈ os, payload? o = none) →
      (fetchWithChunking tz startDate endDate os).done = false) := by
  have hd := dateDiffInDays_eq startDate endDate
  refine ⟨?_, ?_, ?_, ?_, ?_, ?_⟩
  · intro totalDays st o qs hc hs hres
    rw [attempt_ok _ _ _ _ _ qs hres]
    have ha1 := addDays_ge tz lo hi hz st.currentStart (st.safeChunkSize : Int)
    have hb1 := addDays_ge tz lo hi hz
      (chunkEndOf tz (parseDate endDate) st.currentStart st.safeChunkSize) 1
    have hsz : (1 : Int) ≤ (st.safeChunkSize : Int) := by exact_mod_cast hs
    have hce : st.currentStart ≤ chunkEndOf tz (parseDate endDate) st.currentStart
        st.safeChunkSize ∨ st.currentStart + (st.safeChunkSize : Int) * msPerDay - (hi - lo) ≤
          chunkEndOf tz (parseDate endDate) st.currentStart st.safeChunkSize := by
      unfold chunkEndOf
      simp only []
      split
      · exact Or.inl hc
      · exact Or.inr ha1
    rw [msPerDay_eq] at *
    refine ⟨rfl, ?_, ?_⟩
    · show st.currentStart <
        addDays tz (chunkEndOf tz (parseDate endDate) st.currentStart st.safeChunkSize) 1
      rcases hce with h1 | h1 <;> omega
    · intro heq
      show st.currentStart + 86400000 ≤
        addDays tz (chunkEndOf tz (parseDate endDate) st.currentStart st.safeChunkSize) 1
      rcases hce with h1 | h1 <;> omega
  · intro os
    obtain ⟨_, hup, hcount⟩ := countInv_run tz lo hi hz hw startDate endDate hle os
    have hp : parseDate endDate - parseDate startDate = (endDate - startDate) * msPerDay := by
      unfold parseDate; ring
    rw [msPerDay_eq] at *
    rcases hcount with h1 | h2
    · omega
    · omega
  · intro os hs
    cases hdone : (fetchWithChunking tz startDate endDate os).done with
    | true => rfl
    | false =>
      have := waiting_successes_le tz lo hi hz hw startDate endDate hle os hdone
      omega
  · intro f hfin
    obtain ⟨N, hN⟩ := hfin
    exact terminates_of_recurring_success tz lo hi hz hw startDate endDate hle f
      (fun M => ⟨max M N, le_max_left _ _, hN _ (le_max_right _ _)⟩)
  · intro f hnever
    by_contra hcon
    have hrec : ∀ N, ∃ n, N ≤ n ∧ payload? (f n) ≠ none := by
      intro N
      by_contra hN
      exact hcon ⟨N, fun n hn => by
        by_contra hp
        exact hN ⟨n, hn, hp⟩⟩
    obtain ⟨n, hn⟩ := terminates_of_recurring_success tz lo hi hz hw startDate endDate hle f hrec
    rw [hnever n] at hn
    exact Bool.noConfusion hn
  · intro os hall
    rw [fetchWithChunking_eq]
    exact (chunkLoop_all_failures tz _ _ os (initialState startDate)
      ((parseDate_le_iff _ _).mpr hle) hall).1

/-- The zones `europeBerlin` and `americaNewYork` have offsets that vary by one
hour. -/
theorem sample_zones_within :
    europeBerlin.Within msPerHour (2 * msPerHour) ∧
    americaNewYork.Within (-5 * msPerHour) (-4 * msPerHour) := by
  constructor
  · intro t
    simp only [europeBerlin, TimeZone.withSummerTime]
    refine ⟨?_, ?_⟩ <;> split <;> decide
  · intro t
    simp only [americaNewYork, TimeZone.withSummerTime]
    refine ⟨?_, ?_⟩ <;> split <;> decide

/-! ## Daylight saving: where the chunk dates go wrong -/

/-- Claim C1, evaluated at a failing input: in Europe/Berlin, for start
2024-03-11 and end 2024-04-21 (41 days) with every fetch succeeding, the loop
exits after two chunks, 03-11..03-31 and 03-31..04-20: the day 03-31 lies in
both, the day 04-21 in none, and the last chunk does not end on the end date.
In UTC the same query is fetched as 03-11..03-31, 04-01..04-21. -/
theorem berlin_chunks_overlap_and_stop_short :
    35 < dateDiffInDays (dayOfDate 2024 3 11) (dayOfDate 2024 4 21) ∧
    dateDiffInDays (dayOfDate 2024 3 11) (dayOfDate 2024 4 21) ≤ 400 ∧
    (fetchWithChunking europeBerlin (dayOfDate 2024 3 11) (dayOfDate 2024 4 21)
      [okResponse [], okResponse []]).done = true ∧
    (fetchWithChunking europeBerlin (dayOfDate 2024 3 11) (dayOfDate 2024 4 21)
      [okResponse [], okResponse []]).unused = [] ∧
    fetchedChunks (fetchWithChunking europeBerlin (dayOfDate 2024 3 11) (dayOfDate 2024 4 21)
      [okResponse [], okResponse []]).state.history =
      [(dayOfDate 2024 3 11, dayOfDate 2024 3 31), (dayOfDate 2024 3 31, dayOfDate 2024 4 20)] ∧
    ((fetchedChunks (fetchWithChunking europeBerlin (dayOfDate 2024 3 11)
      (dayOfDate 2024 4 21) [okResponse [], okResponse []]).state.history).filter
        (covers (dayOfDate 2024 3 31))).length = 2 ∧
    ((fetchedChunks (fetchWithChunking europeBerlin (dayOfDate 2024 3 11)
      (dayOfDate 2024 4 21) [okResponse [], okResponse []]).state.history).filter
        (covers (dayOfDate 2024 4 21))).length = 0 ∧
    (fetchedChunks (fetchWithChunking europeBerlin (dayOfDate 2024 3 11)
      (dayOfDate 2024 4 21) [okResponse [], okResponse []]).state.history).getLast?.map
        Prod.snd ≠ some (dayOfDate 2024 4 21) ∧
    fetchedChunks (fetchWithChunking utc (dayOfDate 2024 3 11) (dayOfDate 2024 4 21)
      [okResponse [], okResponse []]).state.history =
      [(dayOfDate 2024 3 11, dayOfDate 2024 3 31), (dayOfDate 2024 4 1, dayOfDate 2024 4 21)] := by
  decide

/-- Claim C7, evaluated at a failing input: in America/New_York, for the query
2024-02-20 to 2024-04-01 the first chunk, computed at cursor 2024-02-20 with
size 20, is requested as 02-20..03-10, while `min(cursor + 20, end)` is
03-11; the loop then fetches 03-11..03-31 and exits without requesting
04-01. -/
theorem newYork_chunk_end_a_day_early :
    parseDate (dayOfDate 2024 2 20) ≤ parseDate (dayOfDate 2024 4 1) ∧
    (initialState (dayOfDate 2024 2 20)).currentStart = parseDate (dayOfDate 2024 2 20) ∧
    (initialState (dayOfDate 2024 2 20)).safeChunkSize = 20 ∧
    chunkRange americaNewYork (parseDate (dayOfDate 2024 4 1))
        (parseDate (dayOfDate 2024 2 20)) 20 =
      (dayOfDate 2024 2 20, dayOfDate 2024 3 10) ∧
    min (dayOfDate 2024 2 20 + 20) (dayOfDate 2024 4 1) = dayOfDate 2024 3 11 ∧
    (fetchWithChunking americaNewYork (dayOfDate 2024 2 20) (dayOfDate 2024 4 1)
        []).requests americaNewYork (parseDate (dayOfDate 2024 4 1)) =
      [(dayOfDate 2024 2 20, dayOfDate 2024 3 10)] ∧
    (fetchWithChunking americaNewYork (dayOfDate 2024 2 20) (dayOfDate 2024 4 1)
        [okResponse [], okResponse []]).done = true ∧
    (fetchWithChunking americaNewYork (dayOfDate 2024 2 20) (dayOfDate 2024 4 1)
        [okResponse [], okResponse []]).requests americaNewYork
          (parseDate (dayOfDate 2024 4 1)) =
      [(dayOfDate 2024 2 20, dayOfDate 2024 3 10), (dayOfDate 2024 3 11, dayOfDate 2024 3 31)] := by
  decide

/-- Claim C12, evaluated at failing inputs in Europe/Berlin.  For the query
2024-02-18 to 2024-03-31 the third successful chunk is 03-31..03-31, fetched
with the cursor on 2024-03-31 00:00 UTC; it moves the cursor to 2024-03-31
23:00 UTC, forward by 23 hours and not by a day, and the date of the new
cursor is the chunk end itself, not the chunk end plus one.  For the query
2024-03-11 to 2024-04-21 the first successful chunk is 03-11..03-31 and the
next request starts on 03-31 again.  Both loops still exit. -/
theorem berlin_cursor_advances_less_than_a_day :
    dayOfDate 2024 2 18 ≤ dayOfDate 2024 3 31 ∧
    (fetchWithChunking europeBerlin (dayOfDate 2024 2 18) (dayOfDate 2024 3 31)
      [okResponse [], okResponse []]).done = false ∧
    (fetchWithChunking europeBerlin (dayOfDate 2024 2 18) (dayOfDate 2024 3 31)
      [okResponse [], okResponse []]).state.currentStart = parseDate (dayOfDate 2024 3 31) ∧
    fetchedChunks (fetchWithChunking europeBerlin (dayOfDate 2024 2 18) (dayOfDate 2024 3 31)
      [okResponse [], okResponse [], okResponse []]).state.history =
      [(dayOfDate 2024 2 18, dayOfDate 2024 3 9), (dayOfDate 2024 3 10, dayOfDate 2024 3 30),
        (dayOfDate 2024 3 31, dayOfDate 2024 3 31)] ∧
    (fetchWithChunking europeBerlin (dayOfDate 2024 2 18) (dayOfDate 2024 3 31)
      [okResponse [], okResponse [], okResponse []]).state.currentStart =
      parseDate (dayOfDate 2024 3 31) + 23 * msPerHour ∧
    (fetchWithChunking europeBerlin (dayOfDate 2024 2 18) (dayOfDate 2024 3 31)
      [okResponse [], okResponse [], okResponse []]).state.currentStart -
      (fetchWithChunking europeBerlin (dayOfDate 2024 2 18) (dayOfDate 2024 3 31)
        [okResponse [], okResponse []]).state.currentStart < msPerDay ∧
    toISODate (fetchWithChunking europeBerlin (dayOfDate 2024 2 18) (dayOfDate 2024 3 31)
      [okResponse [], okResponse [], okResponse []]).state.currentStart =
      dayOfDate 2024 3 31 ∧
    (fetchWithChunking europeBerlin (dayOfDate 2024 2 18) (dayOfDate 2024 3 31)
      [okResponse [], okResponse [], okResponse []]).done = true ∧
    (fetchWithChunking europeBerlin (dayOfDate 2024 3 11) (dayOfDate 2024 4 21)
      [okResponse []]).requests europeBerlin (parseDate (dayOfDate 2024 4 21)) =
      [(dayOfDate 2024 3 11, dayOfDate 2024 3 31), (dayOfDate 2024 3 31, dayOfDate 2024 4 20)] ∧
    (fetchWithChunking europeBerlin (dayOfDate 2024 3 11) (dayOfDate 2024 4 21)
      [okResponse [], okResponse []]).done = true := by
  decide

end EarthquakeDashboard
